import Mathlib

/-!
Verification of the mcp-launchpad daemon/session subsystem specification
against a shallow embedding of the source under `src/mcp_launchpad/`.

The embedding models:
* `ipc.py`   — `IPCMessage.to_bytes` / `IPCMessage.from_bytes` (JSON text
  serialization mirrors Python's `json.dumps` with its default
  `ensure_ascii=True` escaping and `(", ", ": ")` separators; parsing mirrors
  `json.loads`), the Unix socket `start` stale-probe logic, and the two
  per-connection client handlers.
* `config.py` — `_resolve_env_vars`, `ServerConfig.get_resolved_env`,
  `ServerConfig.get_resolved_args`.
* `connection.py` — `ConnectionManager.get_server_config` and the pure prefix
  of `ConnectionManager.connect` (env build, missing-env-var check, the
  `StdioServerParameters` it spawns with).
* `session.py` — `SessionClient._is_daemon_running` as a function of the
  ambient world (pid file, process table, connect probe).
* `cache.py` and `search.py` are not under `src/`; the parts of them that
  claims need are modelled from the spec and marked as such.

Modelling conventions: Python byte strings are `List Nat` (each < 256),
Python `str` is Lean `String` / `List Char` (unicode scalar values; Python's
lone surrogates are not representable and are mapped to parse failure),
JSON numbers are modelled as integers (`Int`; float literals are outside the
model), Python dicts are association lists with unique keys in insertion
order, raised exceptions are `Except` / `Option` failure values, and
filesystem / OS effects are explicit parameters and fields of result records.
-/

/-- Left brace character, written numerically. -/
def lbrace : Char := Char.ofNat 123

/-- Right brace character, written numerically. -/
def rbrace : Char := Char.ofNat 125

/-- JSON values as produced by Python's `json` module, with numbers
restricted to integers. Objects are association lists: a Python dict in
insertion order with unique keys (parsing collapses duplicates exactly the
way `dict(pairs)` does). -/
inductive Json where
  | null : Json
  | bool (b : Bool) : Json
  | num (n : Int) : Json
  | str (s : String) : Json
  | arr (xs : List Json) : Json
  | obj (kvs : List (String × Json)) : Json

/-! ## Decimal digits -/

/-- The character for a decimal (or hex) digit value. -/
def digitChar (d : Nat) : Char :=
  if d < 10 then Char.ofNat (48 + d) else Char.ofNat (87 + d)

/-- Decimal digits of `n`, most significant first (`"0"` for zero). -/
def natDigits (n : Nat) : List Char :=
  if h : n < 10 then [digitChar n]
  else natDigits (n / 10) ++ [digitChar (n % 10)]
termination_by n
decreasing_by exact Nat.div_lt_self (by omega) (by omega)

/-- Serialization of an integer, as `json.dumps` writes `int`. -/
def intChars (n : Int) : List Char :=
  if n < 0 then '-' :: natDigits n.natAbs else natDigits n.natAbs

/-! ## String escaping (`json.dumps`, `ensure_ascii=True`) -/

/-- Four lowercase hex digits of `n < 0x10000`, as in Python's `\u%04x`. -/
def hex4 (n : Nat) : List Char :=
  [digitChar (n / 4096 % 16), digitChar (n / 256 % 16),
   digitChar (n / 16 % 16), digitChar (n % 16)]

/-- Escape one character the way `json.dumps` (default `ensure_ascii=True`)
does: the short table for `"` `\` and the five C escapes, printable ASCII
verbatim, everything else as `\uXXXX`, astral characters as a surrogate
pair. -/
def escapeChar (c : Char) : List Char :=
  if c = '"' then ['\\', '"']
  else if c = '\\' then ['\\', '\\']
  else if c = Char.ofNat 8 then ['\\', 'b']
  else if c = Char.ofNat 12 then ['\\', 'f']
  else if c = '\n' then ['\\', 'n']
  else if c = '\r' then ['\\', 'r']
  else if c = '\t' then ['\\', 't']
  else if 32 ≤ c.toNat ∧ c.toNat ≤ 126 then [c]
  else if c.toNat < 65536 then '\\' :: 'u' :: hex4 c.toNat
  else
    let v := c.toNat - 65536
    '\\' :: 'u' :: hex4 (55296 + v / 1024) ++ '\\' :: 'u' :: hex4 (56320 + v % 1024)

/-- Escape every character of a string body. -/
def escapeString : List Char → List Char
  | [] => []
  | c :: cs => escapeChar c ++ escapeString cs

/-! ## JSON serialization (`json.dumps` with separators `", "` and `": "`) -/

mutual

/-- Serialize a JSON value to text exactly as `json.dumps` does with its
default separators: `", "` between items, `": "` after a key, no space
after `[` or `{`. -/
def serJson : Json → List Char
  | Json.null => ['n', 'u', 'l', 'l']
  | Json.bool true => ['t', 'r', 'u', 'e']
  | Json.bool false => ['f', 'a', 'l', 's', 'e']
  | Json.num n => intChars n
  | Json.str s => '"' :: escapeString s.data ++ ['"']
  | Json.arr [] => ['[', ']']
  | Json.arr (x :: xs) => '[' :: serItems x xs ++ [']']
  | Json.obj [] => [lbrace, rbrace]
  | Json.obj ((k, v) :: kvs) => lbrace :: serPairs k v kvs ++ [rbrace]
termination_by j => sizeOf j
decreasing_by all_goals simp_wf <;> omega

/-- Serialize the items of a nonempty array, separated by `", "`. -/
def serItems (x : Json) : List Json → List Char
  | [] => serJson x
  | y :: ys => serJson x ++ ',' :: ' ' :: serItems y ys
termination_by xs => sizeOf x + sizeOf xs
decreasing_by all_goals simp_wf <;> omega

/-- Serialize the pairs of a nonempty object, separated by `", "`. -/
def serPairs (k : String) (v : Json) : List (String × Json) → List Char
  | [] => '"' :: escapeString k.data ++ '"' :: ':' :: ' ' :: serJson v
  | (k2, v2) :: ps =>
      '"' :: escapeString k.data ++ '"' :: ':' :: ' ' :: serJson v
        ++ ',' :: ' ' :: serPairs k2 v2 ps
termination_by ps => sizeOf v + sizeOf ps
decreasing_by all_goals simp_wf <;> omega

end

/-! ## UTF-8 (`str.encode()` / `bytes.decode()`) -/

/-- UTF-8 encoding of one unicode scalar value. -/
def utf8EncodeChar (c : Char) : List Nat :=
  if c.toNat < 128 then [c.toNat]
  else if c.toNat < 2048 then [192 + c.toNat / 64, 128 + c.toNat % 64]
  else if c.toNat < 65536 then
    [224 + c.toNat / 4096, 128 + c.toNat / 64 % 64, 128 + c.toNat % 64]
  else
    [240 + c.toNat / 262144, 128 + c.toNat / 4096 % 64,
     128 + c.toNat / 64 % 64, 128 + c.toNat % 64]

/-- UTF-8 encoding of a string, as Python's `str.encode()`. -/
def utf8Encode (cs : List Char) : List Nat :=
  (cs.map utf8EncodeChar).flatten

/-- Is `b` a UTF-8 continuation byte? -/
def isCont (b : Nat) : Bool := 128 ≤ b ∧ b < 192

mutual

/-- Strict UTF-8 decoding, as Python's `bytes.decode()`: rejects overlong
forms, surrogates and out-of-range leads. The continuation bytes of 2-, 3-
and 4-byte sequences are handled by the helpers below. -/
def utf8Decode : List Nat → Option (List Char)
  | [] => some []
  | b :: bs =>
    if b < 128 then (utf8Decode bs).map (Char.ofNat b :: ·)
    else if b < 194 then none
    else if b < 224 then utf8Decode2 b bs
    else if b < 240 then utf8Decode3 b bs
    else if b < 245 then utf8Decode4 b bs
    else none
termination_by l => l.length
decreasing_by all_goals simp_wf <;> omega

/-- Continuation of a 2-byte UTF-8 sequence with lead byte `b`. -/
def utf8Decode2 (b : Nat) : List Nat → Option (List Char)
  | b1 :: bs =>
    if isCont b1 then
      (utf8Decode bs).map (Char.ofNat ((b - 192) * 64 + (b1 - 128)) :: ·)
    else none
  | [] => none
termination_by l => l.length
decreasing_by all_goals simp_wf <;> omega

/-- Continuation of a 3-byte UTF-8 sequence with lead byte `b`; the first
continuation byte range depends on the lead (overlong and surrogate
rejection). -/
def utf8Decode3 (b : Nat) : List Nat → Option (List Char)
  | b1 :: b2 :: bs =>
    if (if b = 224 then 160 ≤ b1 ∧ b1 < 192
        else if b = 237 then 128 ≤ b1 ∧ b1 < 160
        else isCont b1 = true) ∧ isCont b2 then
      (utf8Decode bs).map
        (Char.ofNat ((b - 224) * 4096 + (b1 - 128) * 64 + (b2 - 128)) :: ·)
    else none
  | _ => none
termination_by l => l.length
decreasing_by all_goals simp_wf <;> omega

/-- Continuation of a 4-byte UTF-8 sequence with lead byte `b`; the first
continuation byte range depends on the lead (overlong and out-of-range
rejection). -/
def utf8Decode4 (b : Nat) : List Nat → Option (List Char)
  | b1 :: b2 :: b3 :: bs =>
    if (if b = 240 then 144 ≤ b1 ∧ b1 < 192
        else if b = 244 then 128 ≤ b1 ∧ b1 < 144
        else isCont b1 = true) ∧ isCont b2 ∧ isCont b3 then
      (utf8Decode bs).map
        (Char.ofNat ((b - 240) * 262144 + (b1 - 128) * 4096
          + (b2 - 128) * 64 + (b3 - 128)) :: ·)
    else none
  | _ => none
termination_by l => l.length
decreasing_by all_goals simp_wf <;> omega

end

/-! ## JSON parsing (`json.loads`) -/

/-- Is `c` JSON whitespace? `json.loads` skips exactly `' \t\n\r'`. -/
def isJsonWs (c : Char) : Bool := c = ' ' ∨ c = '\t' ∨ c = '\n' ∨ c = '\r'

/-- Drop leading JSON whitespace. -/
def skipWs (cs : List Char) : List Char := cs.dropWhile isJsonWs

/-- Is `c` an ASCII decimal digit? -/
def isDig (c : Char) : Bool := 48 ≤ c.toNat ∧ c.toNat ≤ 57

/-- Value of a hex digit character (upper or lower case), if any. -/
def hexVal (c : Char) : Option Nat :=
  if 48 ≤ c.toNat ∧ c.toNat ≤ 57 then some (c.toNat - 48)
  else if 97 ≤ c.toNat ∧ c.toNat ≤ 102 then some (c.toNat - 87)
  else if 65 ≤ c.toNat ∧ c.toNat ≤ 70 then some (c.toNat - 55)
  else none

/-- Combined value of four hex digit characters, if all are hex digits. -/
def hex4Val (a b c d : Char) : Option Nat :=
  match hexVal a, hexVal b, hexVal c, hexVal d with
  | some x, some y, some z, some w => some (x * 4096 + y * 256 + z * 16 + w)
  | _, _, _, _ => none

mutual

/-- Parse a JSON string body after the opening quote, mirroring Python's
`py_scanstring` in strict mode: unescaped control characters are rejected,
the escape table is `"` `\` `/` `b` `f` `n` `r` `t` `u`, and a `\uXXXX`
high surrogate must combine with a following `\uXXXX` low surrogate (Python
would keep a lone surrogate in the `str`; such a character does not exist in
this model, so lone surrogates are mapped to failure). Returns the decoded
body and the text after the closing quote. The escape forms are handled by
the helpers below. -/
def scanString : List Char → Option (List Char × List Char)
  | [] => none
  | c :: cs =>
    if c = '"' then some ([], cs)
    else if c = '\\' then escScan cs
    else if c.toNat < 32 then none
    else (scanString cs).map (fun r => (c :: r.1, r.2))
termination_by l => l.length
decreasing_by all_goals simp_wf <;> omega

/-- Handle the character after a backslash in a JSON string body. -/
def escScan : List Char → Option (List Char × List Char)
  | [] => none
  | e :: cs =>
    if e = 'u' then uScan cs
    else if e = '"' then (scanString cs).map (fun r => ('"' :: r.1, r.2))
    else if e = '\\' then (scanString cs).map (fun r => ('\\' :: r.1, r.2))
    else if e = '/' then (scanString cs).map (fun r => ('/' :: r.1, r.2))
    else if e = 'b' then (scanString cs).map (fun r => (Char.ofNat 8 :: r.1, r.2))
    else if e = 'f' then (scanString cs).map (fun r => (Char.ofNat 12 :: r.1, r.2))
    else if e = 'n' then (scanString cs).map (fun r => ('\n' :: r.1, r.2))
    else if e = 'r' then (scanString cs).map (fun r => ('\r' :: r.1, r.2))
    else if e = 't' then (scanString cs).map (fun r => ('\t' :: r.1, r.2))
    else none
termination_by l => l.length
decreasing_by all_goals simp_wf <;> omega

/-- Handle the four hex digits after `\u`, including surrogate pairing. -/
def uScan : List Char → Option (List Char × List Char)
  | a :: b :: c2 :: d :: cs =>
    (hex4Val a b c2 d).bind (fun n =>
      if 55296 ≤ n ∧ n < 56320 then loSurrogateScan n cs
      else if 56320 ≤ n ∧ n < 57344 then none
      else (scanString cs).map (fun r => (Char.ofNat n :: r.1, r.2)))
  | _ => none
termination_by l => l.length
decreasing_by all_goals simp_wf <;> omega

/-- Handle the `\uXXXX` low surrogate required after a high surrogate
escape `n`. -/
def loSurrogateScan (n : Nat) : List Char → Option (List Char × List Char)
  | '\\' :: 'u' :: a :: b :: c2 :: d :: cs =>
    (hex4Val a b c2 d).bind (fun m =>
      if 56320 ≤ m ∧ m < 57344 then
        (scanString cs).map
          (fun r => (Char.ofNat (65536 + (n - 55296) * 1024 + (m - 56320)) :: r.1, r.2))
      else none)
  | _ => none
termination_by l => l.length
decreasing_by all_goals simp_wf <;> omega

end

/-- Does the text begin with a character that would extend a number token
(a digit, `.`, `e` or `E`)? Used to mirror the greedy `NUMBER_RE` match. -/
def extendsNum : List Char → Bool
  | [] => false
  | c :: _ => isDig c ∨ c = '.' ∨ c = 'e' ∨ c = 'E'

/-- Numeric value of a digit string under a left fold. -/
def digitsVal (ds : List Char) : Nat :=
  ds.foldl (fun acc c => acc * 10 + (c.toNat - 48)) 0

/-- Parse an unsigned JSON integer token: `0` or a nonzero digit followed by
digits, greedily. A following `.`/`e`/`E` would make Python's scanner match
a float; floats are outside this model, so that case is mapped to failure.
Mirrors the integer part of Python's `NUMBER_RE`. -/
def scanUInt : List Char → Option (Nat × List Char)
  | [] => none
  | c :: cs =>
    if c = '0' then
      if extendsNum cs then none else some (0, cs)
    else if isDig c then
      let ds := cs.takeWhile isDig
      let rest := cs.dropWhile isDig
      if extendsNum rest then none else some (digitsVal (c :: ds), rest)
    else none

/-- Parse a signed JSON integer token (`-?` then `scanUInt`). -/
def scanInt : List Char → Option (Int × List Char)
  | [] => none
  | c :: cs =>
    if c = '-' then (scanUInt cs).map (fun r => (-(r.1 : Int), r.2))
    else (scanUInt (c :: cs)).map (fun r => ((r.1 : Int), r.2))

/-- Insert a key/value pair as Python `dict` construction does: an existing
key keeps its position and takes the new value, a new key is appended. -/
def dictInsert (kvs : List (String × Json)) (k : String) (v : Json) :
    List (String × Json) :=
  if (kvs.map Prod.fst).contains k then
    kvs.map (fun p => if p.1 = k then (p.1, v) else p)
  else kvs ++ [(k, v)]

/-- Collapse a parsed pair list into a Python dict (`dict(pairs)`). -/
def dictOfPairs (ps : List (String × Json)) : List (String × Json) :=
  ps.foldl (fun acc p => dictInsert acc p.1 p.2) []

/-- Expect a literal keyword tail (Python's `s[idx:idx + n] == lit` check
for `null` / `true` / `false`), consuming it. -/
def expectLit (lit : List Char) (v : Json) (cs : List Char) : Option (Json × List Char) :=
  if lit.isPrefixOf cs then some (v, cs.drop lit.length) else none

mutual

/-- Parse one JSON value at the current position (no leading whitespace),
mirroring Python's `py_make_scanner` dispatch. `fuel` bounds the recursion;
`jsonLoads` supplies enough for any input that parses. The handling after
each structural token is split into the named helpers below. -/
def scanValue : Nat → List Char → Option (Json × List Char)
  | 0, _ => none
  | _ + 1, [] => none
  | fuel + 1, c :: cs =>
    if c = '"' then
      (scanString cs).map (fun r => (Json.str (String.mk r.1), r.2))
    else if c = '[' then scanArrBody fuel (skipWs cs)
    else if c = lbrace then scanObjBody fuel (skipWs cs)
    else if c = 'n' then expectLit ['u', 'l', 'l'] Json.null cs
    else if c = 't' then expectLit ['r', 'u', 'e'] (Json.bool true) cs
    else if c = 'f' then expectLit ['a', 'l', 's', 'e'] (Json.bool false) cs
    else if c = '-' ∨ isDig c then
      (scanInt (c :: cs)).map (fun r => (Json.num r.1, r.2))
    else none
termination_by fuel _ => 8 * fuel
decreasing_by all_goals simp_wf <;> omega

/-- After `[` and whitespace: empty array or its items. -/
def scanArrBody (fuel : Nat) : List Char → Option (Json × List Char)
  | c2 :: r' =>
    if c2 = ']' then some (Json.arr [], r')
    else (scanItems fuel (c2 :: r')).map (fun r => (Json.arr r.1, r.2))
  | [] => none
termination_by l => 8 * fuel + 6
decreasing_by all_goals simp_wf <;> omega

/-- After `{` and whitespace: empty object or its members (collapsed into
a dict the way Python's `dict(pairs)` is). -/
def scanObjBody (fuel : Nat) : List Char → Option (Json × List Char)
  | c2 :: r' =>
    if c2 = rbrace then some (Json.obj [], r')
    else (scanMembers fuel (c2 :: r')).map (fun r => (Json.obj (dictOfPairs r.1), r.2))
  | [] => none
termination_by l => 8 * fuel + 6
decreasing_by all_goals simp_wf <;> omega

/-- Parse the items of a nonempty array, up to and including the closing
`]`. -/
def scanItems : Nat → List Char → Option (List Json × List Char)
  | 0, _ => none
  | fuel + 1, cs =>
    (scanValue fuel cs).bind (fun vr => afterItemVal fuel vr.1 (skipWs vr.2))
termination_by fuel _ => 8 * fuel + 4
decreasing_by all_goals simp_wf <;> omega

/-- After one array item and whitespace: close the array or continue after
a comma. -/
def afterItemVal (fuel : Nat) (v : Json) : List Char → Option (List Json × List Char)
  | c :: r' =>
    if c = ']' then some ([v], r')
    else if c = ',' then
      (scanItems fuel (skipWs r')).map (fun r => (v :: r.1, r.2))
    else none
  | [] => none
termination_by l => 8 * fuel + 5
decreasing_by all_goals simp_wf <;> omega

/-- Parse the members of a nonempty object, up to and including the closing
`}`. Pairs are returned in textual order; `scanObjBody` collapses them. -/
def scanMembers : Nat → List Char → Option (List (String × Json) × List Char)
  | 0, _ => none
  | fuel + 1, cs =>
    match cs with
    | '"' :: cs' => (scanString cs').bind (fun kr => afterKey fuel kr.1 (skipWs kr.2))
    | _ => none
termination_by fuel _ => 8 * fuel + 4
decreasing_by all_goals simp_wf <;> omega

/-- After an object key and whitespace: expect `:` and the value. -/
def afterKey (fuel : Nat) (k : List Char) : List Char → Option (List (String × Json) × List Char)
  | c1 :: r2 =>
    if c1 = ':' then
      (scanValue fuel (skipWs r2)).bind (fun vr => afterMemberVal fuel k vr.1 (skipWs vr.2))
    else none
  | [] => none
termination_by l => 8 * fuel + 7
decreasing_by all_goals simp_wf <;> omega

/-- After one key/value member and whitespace: close the object or continue
after a comma. -/
def afterMemberVal (fuel : Nat) (k : List Char) (v : Json) :
    List Char → Option (List (String × Json) × List Char)
  | c :: r4 =>
    if c = rbrace then some ([(String.mk k, v)], r4)
    else if c = ',' then
      (scanMembers fuel (skipWs r4)).map (fun r => ((String.mk k, v) :: r.1, r.2))
    else none
  | [] => none
termination_by l => 8 * fuel + 6
decreasing_by all_goals simp_wf <;> omega

end

/-- Parse a complete JSON document the way `json.loads` does: skip leading
whitespace, parse exactly one value, skip trailing whitespace, and reject
any extra data. The fuel `cs.length + 1` suffices for every document that
parses (each unit of fuel is spent only after consuming input). -/
def jsonLoads (cs : List Char) : Option Json :=
  match scanValue (cs.length + 1) (skipWs cs) with
  | some (j, rest) => if skipWs rest = [] then some j else none
  | none => none

/-! ## `ipc.py`: IPCMessage wire format -/

/-- A message sent between CLI and daemon (`ipc.py` `IPCMessage`). The
dataclass annotates `action: str` and `payload: dict`, but Python does not
enforce annotations and `from_bytes` can build a message whose fields are
arbitrary JSON values, so both fields are modelled as `Json`. -/
structure IPCMessage where
  action : Json
  payload : Json

/-- The four big-endian bytes of `struct.pack(">I", n)` for `n < 2^32`. -/
def be32 (n : Nat) : List Nat :=
  [n / 16777216 % 256, n / 65536 % 256, n / 256 % 256, n % 256]

/-- `IPCMessage.to_bytes`: UTF-8 JSON encoding of
`{"action": ..., "payload": ...}` behind a 4-byte big-endian length
prefix. -/
def IPCMessage.to_bytes (m : IPCMessage) : List Nat :=
  let data := utf8Encode (serJson (Json.obj [("action", m.action), ("payload", m.payload)]))
  be32 data.length ++ data

/-- Python dict lookup on a collapsed (unique-key) association list. -/
def dictGet (kvs : List (String × Json)) (k : String) : Option Json :=
  kvs.lookup k

/-- `IPCMessage.from_bytes`: UTF-8 decode, `json.loads`, then
`parsed["action"]` (a `KeyError`, or a `TypeError` on a non-dict result,
fails the call) and `parsed.get("payload", {})`. The input is the JSON body
only: every caller in the source (`read_message`,
`WindowsIPCServer._handle_pipe_client`) strips the 4-byte header before
calling it. -/
def IPCMessage.from_bytes (data : List Nat) : Option IPCMessage :=
  match utf8Decode data with
  | none => none
  | some cs =>
    match jsonLoads cs with
    | none => none
    | some (Json.obj kvs) =>
      match dictGet kvs "action" with
      | none => none
      | some a => some ⟨a, (dictGet kvs "payload").getD (Json.obj [])⟩
    | some _ => none

/-! ## `ipc.py`: Unix socket server start (stale-socket probe) -/

/-- Outcome of the probe connection attempt inside
`UnixIPCServer._is_socket_in_use`: the `try` body succeeded, or one of its
`except` arms fired. -/
inductive ProbeOutcome where
  | connected : ProbeOutcome
  | connectionRefused : ProbeOutcome
  | fileNotFound : ProbeOutcome
  | timedOut : ProbeOutcome
  | otherError : ProbeOutcome
deriving DecidableEq

/-- `UnixIPCServer._is_socket_in_use`: `True` only when the connect attempt
succeeds; every exception arm (refused, missing file, timeout, anything
else) returns `False` ("assume stale"). -/
def is_socket_in_use : ProbeOutcome → Bool
  | ProbeOutcome.connected => true
  | ProbeOutcome.connectionRefused => false
  | ProbeOutcome.fileNotFound => false
  | ProbeOutcome.timedOut => false
  | ProbeOutcome.otherError => false

/-- Observable result of `UnixIPCServer.start`: whether the `RuntimeError`
conflict was raised, whether the stale socket file was unlinked, whether the
probe ran at all, and whether `asyncio.start_unix_server` was reached. -/
structure StartResult where
  conflict : Bool
  removedFile : Bool
  probed : Bool
  bound : Bool
deriving DecidableEq

/-- `UnixIPCServer.start` as a function of the filesystem state (does the
socket path exist?) and the probe outcome: an existing path is probed; a
live listener raises the conflict error before any unlink; a stale path is
unlinked and then bound; a missing path is bound with no probe. -/
def unix_server_start (socketExists : Bool) (probe : ProbeOutcome) : StartResult :=
  if socketExists then
    if is_socket_in_use probe then
      { conflict := true, removedFile := false, probed := true, bound := false }
    else
      { conflict := false, removedFile := true, probed := true, bound := true }
  else
    { conflict := false, removedFile := false, probed := false, bound := true }

/-! ## `ipc.py`: per-connection client handlers -/

/-- The `{action: "error", payload: {error: message}}` response built in
`UnixIPCServer._handle_client`. -/
def errorResponse (msg : String) : IPCMessage :=
  ⟨Json.str "error", Json.obj [("error", Json.str msg)]⟩

/-- `UnixIPCServer._handle_client`, as the sequence of messages the server
writes on one accepted connection, given what `read_message` produced
(`none` models a short read / unparsable frame, both of which end the
connection silently) and the handler's outcome (`Except.error e` models the
handler raising an exception whose `str` is `e`). A handler exception is
converted into an `errorResponse` written on the same connection; nothing
escapes the accept loop (the function is total). Writes themselves are
assumed to succeed: a failed error-response write is also swallowed in the
source. -/
def unix_handle_client (read : Option IPCMessage)
    (handler : IPCMessage → Except String IPCMessage) : List IPCMessage :=
  match read with
  | none => []
  | some m =>
    match handler m with
    | Except.ok resp => [resp]
    | Except.error e => [errorResponse e]

/-- `WindowsIPCServer._handle_pipe_client`, as the sequence of messages the
server writes on one accepted pipe connection. Its `try` block covers
parsing, the handler call and the response write; its `except` arm only
logs, so a handler exception produces no response at all. -/
def windows_handle_pipe_client (read : Option IPCMessage)
    (handler : IPCMessage → Except String IPCMessage) : List IPCMessage :=
  match read with
  | none => []
  | some m =>
    match handler m with
    | Except.ok resp => [resp]
    | Except.error _ => []

/-! ## `config.py`: `${VAR}` resolution -/

/-- Python `str.replace`: replace every non-overlapping occurrence of
`old` (nonempty here), scanning left to right. -/
def pyReplace (s old new : List Char) : List Char :=
  match s with
  | [] => []
  | c :: rest =>
    if h : old ≠ [] ∧ old.isPrefixOf (c :: rest) then
      new ++ pyReplace ((c :: rest).drop old.length) old new
    else c :: pyReplace rest old new
termination_by s.length
decreasing_by
  all_goals simp_wf
  all_goals try omega
  have h1 : 0 < old.length := List.length_pos.mpr h.1
  omega

/-- Dropping a satisfying prefix and then one more element shortens a
list (termination helper for the regex scan below). -/
theorem dropWhile_cons_length {α : Type} {p : α → Bool} {l t : List α} {a : α}
    (h : l.dropWhile p = a :: t) : t.length < l.length := by
  have hle := (List.dropWhile_sublist (l := l) p).length_le
  rw [h] at hle
  simp only [List.length_cons] at hle
  omega

/-- The full texts matched by `re.finditer(r'\$\{([^}]+)\}', value)`, as
their inner groups, in order: at `${`, the regex takes the longest run of
non-`}` characters (at least one) up to a closing `}`; scanning resumes
after the match, or one character later when no match starts here. -/
def findPlaceholders (cs : List Char) : List (List Char) :=
  match cs with
  | [] => []
  | c :: rest =>
    if c = '$' then
      match rest with
      | c2 :: rest2 =>
        if c2 = lbrace then
          let inner := rest2.takeWhile (fun x => x ≠ rbrace)
          let rest3 := rest2.dropWhile (fun x => x ≠ rbrace)
          if inner = [] ∨ rest3 = [] then findPlaceholders (c2 :: rest2)
          else inner :: findPlaceholders (rest3.drop 1)
        else findPlaceholders (c2 :: rest2)
      | [] => []
    else findPlaceholders rest
termination_by cs.length
decreasing_by
  all_goals simp_wf <;> try omega
  have hle := (List.dropWhile_sublist (l := r') (fun x => !decide (x = rbrace))).length_le
  omega

/-- `_resolve_env_vars(value)` from `config.py`, with the ambient
`os.environ` as an explicit map: if `"${"` does not occur, return the value
unchanged; otherwise, for each regex match in order, replace every
occurrence of the matched `${NAME}` text with `os.environ.get(NAME, "")`. -/
def resolve_env_vars (environ : String → Option String) (value : String) : String :=
  if ¬ (['$', lbrace] <:+: value.data) then value
  else
    String.mk <|
      (findPlaceholders value.data).foldl
        (fun result inner =>
          pyReplace result ('$' :: lbrace :: inner ++ [rbrace])
            ((environ (String.mk inner)).getD "").data)
        value.data

/-- One MCP server configuration (`config.py` `ServerConfig`), the fields
the claims need. -/
structure ServerConfig where
  name : String
  command : String
  args : List String
  env : List (String × String)

/-- `ServerConfig.get_resolved_env`. -/
def ServerConfig.get_resolved_env (environ : String → Option String)
    (c : ServerConfig) : List (String × String) :=
  c.env.map (fun p => (p.1, resolve_env_vars environ p.2))

/-- `ServerConfig.get_resolved_args`. -/
def ServerConfig.get_resolved_args (environ : String → Option String)
    (c : ServerConfig) : List String :=
  c.args.map (resolve_env_vars environ)

/-! ## `connection.py`: ConnectionManager -/

/-- Python `", ".join`-style concatenation. -/
def joinSep (sep : String) : List String → String
  | [] => ""
  | [x] => x
  | x :: y :: ys => x ++ sep ++ joinSep sep (y :: ys)

/-- `ConnectionManager.get_server_config`: look the name up in the config's
server dict (an insertion-ordered association list with unique keys);
unknown names raise a `ValueError` whose message lists every configured
server name, sorted. -/
def ConnectionManager.get_server_config (servers : List (String × ServerConfig))
    (configPath : String) (name : String) : Except String ServerConfig :=
  match servers.lookup name with
  | some c => Except.ok c
  | none =>
    Except.error
      ("Server '" ++ name ++ "' not found.\n\nAvailable servers: "
        ++ joinSep ", " ((servers.map Prod.fst).insertionSort (fun a b => a ≤ b))
        ++ "\n\nCheck your config file at: " ++ configPath)

/-- Is `os.environ.get(x)` falsy (`None` or the empty string)? The source
guards with `if not os.environ.get(env_var)`. -/
def isFalsyEnv : Option String → Bool
  | none => true
  | some s => s = ""

/-- The `ValueError` message raised by `ConnectionManager.connect` for a
missing required environment variable. -/
def missingEnvMessage (envVar serverName : String) : String :=
  "Missing required environment variable: " ++ envVar
    ++ "\n\nThe '" ++ serverName ++ "' server requires " ++ envVar
    ++ " to be set.\n\nTo fix this:\n1. Add " ++ envVar
    ++ "=your_value to your .env file\n2. Or set it in your environment: export "
    ++ envVar ++ "=your_value\n\nSearched .env locations:\n  ./.env\n  ~/.claude/.env"

/-- The missing-required-env-var loop of `ConnectionManager.connect`
(lines 87-100): for each raw `env` entry in order, if the value starts with
`"${"` and ends with `"}"`, take `value[2:-1]` as the variable name and
raise when the ambient environment's value for it is falsy. Returns the
message of the first error raised, if any. -/
def required_env_error (environ : String → Option String) (serverName : String)
    (env : List (String × String)) : Option String :=
  env.findSome? fun p =>
    if ['$', lbrace].isPrefixOf p.2.data ∧ [rbrace].isSuffixOf p.2.data then
      let envVar := String.mk ((p.2.data.drop 2).dropLast)
      if isFalsyEnv (environ envVar) then some (missingEnvMessage envVar serverName)
      else none
    else none

/-- The child environment `{**os.environ, **resolved}`: resolved entries
override the ambient environment. -/
def buildEnv (environ : String → Option String) (resolved : List (String × String)) :
    String → Option String :=
  fun k =>
    match resolved.lookup k with
    | some v => some v
    | none => environ k

/-- The `StdioServerParameters` the source spawns the subprocess with. -/
structure StdioServerParameters where
  command : String
  args : List String
  env : String → Option String

/-- Failures of the pure prefix of `ConnectionManager.connect`. -/
inductive ConnectError where
  | notFound (msg : String)
  | missingEnv (msg : String)

/-- The pure prefix of `ConnectionManager.connect` (lines 81-106): config
lookup, environment build via `get_resolved_env`, the required-env-var
check, and the `StdioServerParameters` construction. Note the source passes
the raw `server_config.args` here, not `get_resolved_args()`. -/
def ConnectionManager.connect_prelude (servers : List (String × ServerConfig))
    (configPath : String) (environ : String → Option String) (name : String) :
    Except ConnectError StdioServerParameters :=
  match ConnectionManager.get_server_config servers configPath name with
  | Except.error e => Except.error (ConnectError.notFound e)
  | Except.ok cfg =>
    let env := buildEnv environ (cfg.get_resolved_env environ)
    match required_env_error environ name cfg.env with
    | some msg => Except.error (ConnectError.missingEnv msg)
    | none => Except.ok { command := cfg.command, args := cfg.args, env := env }

/-- Does the `Except` hold a missing-env-var error? -/
def isMissingEnvError : Except ConnectError StdioServerParameters → Bool
  | Except.error (ConnectError.missingEnv _) => true
  | _ => false

/-! ## `session.py`: SessionClient._is_daemon_running -/

/-- Is `c` in the ASCII part of Python's `str.strip()` whitespace set? -/
def isPyWs (c : Char) : Bool :=
  c = ' ' ∨ c = '\t' ∨ c = '\n' ∨ c = '\r' ∨ c = Char.ofNat 11 ∨ c = Char.ofNat 12

/-- Python `str.strip()` (ASCII whitespace; the pid file is written by the
daemon and is ASCII). -/
def pyStrip (s : String) : List Char :=
  ((s.data.dropWhile isPyWs).reverse.dropWhile isPyWs).reverse

/-- Python `int(str)` on an already meaningful literal: optional sign then
decimal digits (underscore grouping and non-ASCII digits are outside the
model). `none` models the `ValueError`. -/
def pyIntOfString (s : String) : Option Int :=
  match pyStrip s with
  | '-' :: ds => if ds ≠ [] ∧ ds.all isDig then some (-(digitsVal ds : Int)) else none
  | '+' :: ds => if ds ≠ [] ∧ ds.all isDig then some ((digitsVal ds : Int)) else none
  | ds => if ds ≠ [] ∧ ds.all isDig then some ((digitsVal ds : Int)) else none

/-- The ambient world `SessionClient._is_daemon_running` consults: whether
the pid file exists, what reading it yields (`Except.error` models an
`OSError`), which pids name live processes, and whether `connect_to_daemon`
returns a connection. -/
structure DaemonWorld where
  pidFileExists : Bool
  pidFileRead : Except Unit String
  processAlive : Int → Bool
  connectOk : Bool

/-- What `SessionClient._is_daemon_running` returns and whether it unlinked
the pid file on the way. -/
structure DaemonCheckResult where
  running : Bool
  pidFileDeleted : Bool
deriving DecidableEq

/-- `SessionClient._is_daemon_running`: no pid file — `False`; unreadable
or unparsable content — `False` with the file left in place; parsable pid
of a dead process — unlink the pid file and `False`; live pid — `True`
exactly when the transport connection succeeds. -/
def SessionClient.is_daemon_running (w : DaemonWorld) : DaemonCheckResult :=
  if ¬ w.pidFileExists then ⟨false, false⟩
  else
    match w.pidFileRead with
    | Except.error _ => ⟨false, false⟩
    | Except.ok content =>
      match pyIntOfString content with
      | none => ⟨false, false⟩
      | some pid =>
        if ¬ w.processAlive pid then ⟨false, true⟩
        else if w.connectOk then ⟨true, false⟩
        else ⟨false, false⟩

/-! ## `connection.py`: ToolInfo, and the spec-modelled Tool Cache -/

/-- `connection.py` `ToolInfo` (lightweight tool information). -/
structure ToolInfo where
  server : String
  name : String
  description : String
  input_schema : Json

/-- Modelled from the spec: `cache.py` (`ToolCache.refresh`) is not under
`src/`. Spec §4.4: "for every configured server, independently call the
Connection Manager's `listTools`; a server that raises any error
contributes zero tools and is skipped". This folds the per-server outcomes
into the accumulated tool list and the number of failed servers. -/
def refreshCollect : List (String × Except String (List ToolInfo)) → List ToolInfo × Nat
  | [] => ([], 0)
  | (_, Except.ok ts) :: rest =>
    let r := refreshCollect rest
    (ts ++ r.1, r.2)
  | (_, Except.error _) :: rest =>
    let r := refreshCollect rest
    (r.1, r.2 + 1)

/-- Modelled from the spec: `cache.py` (`ToolCache.refresh`) is not under
`src/`. Spec §4.4: "the error is not propagated unless **every** server
failed, in which case the whole refresh raises an aggregate 'failed to
connect to any servers' error. On at least one success, the accumulated
tool list fully replaces the on-disk index." `outcomes` is the result of
each configured server's `listTools` call, in configuration order. -/
def ToolCache.refresh (outcomes : List (String × Except String (List ToolInfo))) :
    Except String (List ToolInfo) :=
  let r := refreshCollect outcomes
  if outcomes.length ≠ 0 ∧ r.2 = outcomes.length then
    Except.error "Failed to connect to any servers"
  else Except.ok r.1

/-! ## Spec-modelled Search Index (exact method) -/

/-- ASCII lower-casing of one character. -/
def lowerChar (c : Char) : Char :=
  if 65 ≤ c.toNat ∧ c.toNat ≤ 90 then Char.ofNat (c.toNat + 32) else c

/-- Lower-cased character sequence of a string. -/
def lowerStr (s : String) : List Char := s.data.map lowerChar

/-- Case-insensitive substring containment. -/
def containsCI (hay q : String) : Bool := decide (lowerStr q <:+: lowerStr hay)

/-- Modelled from the spec: `search.py` (`ToolSearcher.search_exact`) is
not under `src/`. Spec §4.5 `exact`: "case-insensitive substring match;
scoring must rank a match in the tool's *name* above a match only in its
*server* name, above a match only in its *description*". A non-matching
tool gets no score and is dropped. -/
def exactScore (q : String) (t : ToolInfo) : Option Nat :=
  if containsCI t.name q then some 3
  else if containsCI t.server q then some 2
  else if containsCI t.description q then some 1
  else none

/-- Modelled from the spec: `search.py` (`ToolSearcher.search_exact`) is
not under `src/`. Scored matching tools, ordered by descending score; the
stable sort breaks ties deterministically by input order (spec §4.5: "ties
broken arbitrarily but deterministically"). -/
def ToolSearcher.search_exact (q : String) (tools : List ToolInfo) :
    List (ToolInfo × Nat) :=
  (tools.filterMap (fun t => (exactScore q t).map (fun s => (t, s)))).insertionSort
    (fun a b => a.2 ≥ b.2)

/-! ## Character and UTF-8 lemmas -/

/-- A valid scalar value round-trips through `Char.ofNat`. -/
theorem toNat_ofNat_valid (n : Nat) (h : Nat.isValidChar n) : (Char.ofNat n).toNat = n := by
  unfold Char.ofNat
  rw [dif_pos h]
  unfold Char.ofNatAux Char.toNat
  simp only [UInt32.toNat]
  simp [BitVec.toNat_ofNatLt]

/-- Every `Char` carries a valid scalar value. -/
theorem char_valid (c : Char) : Nat.isValidChar c.toNat := by
  have h := c.valid
  unfold UInt32.isValidChar at h
  exact h

/-- Characters with equal scalar values are equal. -/
theorem char_eq_of_toNat {c c' : Char} (h : c.toNat = c'.toNat) : c = c' := by
  have h1 := Char.ofNat_toNat c
  have h2 := Char.ofNat_toNat c'
  rw [← h1, ← h2, h]

/-- Decoding after encoding one character peels it off unchanged. -/
theorem utf8Decode_encodeChar (c : Char) (bs : List Nat) :
    utf8Decode (utf8EncodeChar c ++ bs) = (utf8Decode bs).map (c :: ·) := by
  have hv := char_valid c
  unfold Nat.isValidChar at hv
  unfold utf8EncodeChar
  by_cases h1 : c.toNat < 128
  · simp only [if_pos h1, List.cons_append, List.nil_append]
    conv_lhs => rw [utf8Decode]
    rw [if_pos h1, Char.ofNat_toNat]
  · by_cases h2 : c.toNat < 2048
    · simp only [if_neg h1, if_pos h2, List.cons_append, List.nil_append]
      conv_lhs => rw [utf8Decode]
      rw [if_neg (by omega), if_neg (by omega), if_pos (by omega)]
      conv_lhs => rw [utf8Decode2]
      rw [if_pos (by simp only [isCont, decide_eq_true_eq]; omega)]
      have harg : (192 + c.toNat / 64 - 192) * 64 + (128 + c.toNat % 64 - 128) = c.toNat := by
        omega
      rw [harg, Char.ofNat_toNat]
    · by_cases h3 : c.toNat < 65536
      · simp only [if_neg h1, if_neg h2, if_pos h3, List.cons_append, List.nil_append]
        conv_lhs => rw [utf8Decode]
        rw [if_neg (by omega), if_neg (by omega), if_neg (by omega), if_pos (by omega)]
        conv_lhs => rw [utf8Decode3]
        rw [if_pos ?side]
        case side =>
          constructor
          · split_ifs with hb1 hb2
            · omega
            · simp only [isCont, decide_eq_true_eq] at *
              omega
            · simp only [isCont, decide_eq_true_eq]
              omega
          · simp only [isCont, decide_eq_true_eq]
            omega
        have harg : (224 + c.toNat / 4096 - 224) * 4096 + (128 + c.toNat / 64 % 64 - 128) * 64
            + (128 + c.toNat % 64 - 128) = c.toNat := by
          omega
        rw [harg, Char.ofNat_toNat]
      · simp only [if_neg h1, if_neg h2, if_neg h3, List.cons_append, List.nil_append]
        conv_lhs => rw [utf8Decode]
        rw [if_neg (by omega), if_neg (by omega), if_neg (by omega), if_neg (by omega),
          if_pos (by omega)]
        conv_lhs => rw [utf8Decode4]
        rw [if_pos ?side]
        case side =>
          refine ⟨?_, ?_, ?_⟩
          · split_ifs with hb1 hb2
            · omega
            · simp only [isCont, decide_eq_true_eq] at *
              omega
            · simp only [isCont, decide_eq_true_eq]
              omega
          · simp only [isCont, decide_eq_true_eq]
            omega
          · simp only [isCont, decide_eq_true_eq]
            omega
        have harg : (240 + c.toNat / 262144 - 240) * 262144
            + (128 + c.toNat / 4096 % 64 - 128) * 4096
            + (128 + c.toNat / 64 % 64 - 128) * 64 + (128 + c.toNat % 64 - 128) = c.toNat := by
          omega
        rw [harg, Char.ofNat_toNat]

/-- UTF-8 decoding inverts UTF-8 encoding. -/
theorem utf8_roundtrip (cs : List Char) : utf8Decode (utf8Encode cs) = some cs := by
  induction cs with
  | nil =>
    show utf8Decode [] = some []
    rw [utf8Decode]
  | cons c cs ih =>
    have : utf8Encode (c :: cs) = utf8EncodeChar c ++ utf8Encode cs := by
      simp [utf8Encode]
    rw [this, utf8Decode_encodeChar, ih]
    rfl

/-! ## Digit and number lemmas -/

/-- Unequal scalar values give unequal characters. -/
theorem char_ne_of_toNat {c c' : Char} (h : c.toNat ≠ c'.toNat) : c ≠ c' :=
  fun he => h (congrArg Char.toNat he)

/-- Scalar value of a decimal digit character. -/
theorem digitChar_toNat {d : Nat} (h : d < 10) : (digitChar d).toNat = 48 + d := by
  unfold digitChar
  rw [if_pos h]
  exact toNat_ofNat_valid _ (Or.inl (by omega))

/-- Decimal digit characters satisfy `isDig`. -/
theorem isDig_digitChar {d : Nat} (h : d < 10) : isDig (digitChar d) = true := by
  simp only [isDig, digitChar_toNat h, decide_eq_true_eq]
  omega

/-- Every character of `natDigits n` is a decimal digit. -/
theorem natDigits_all_dig (n : Nat) : ∀ c ∈ natDigits n, isDig c = true := by
  induction n using Nat.strong_induction_on with
  | _ n ih =>
    unfold natDigits
    by_cases h : n < 10
    · rw [dif_pos h]
      intro c hc
      simp only [List.mem_singleton] at hc
      subst hc
      exact isDig_digitChar h
    · rw [dif_neg h]
      intro c hc
      rcases List.mem_append.mp hc with hc | hc
      · exact ih (n / 10) (Nat.div_lt_self (by omega) (by omega)) c hc
      · simp only [List.mem_singleton] at hc
        subst hc
        exact isDig_digitChar (Nat.mod_lt _ (by omega))

/-- `natDigits n` starts with a digit character, nonzero when `n` is. -/
theorem natDigits_head (n : Nat) :
    ∃ d t, natDigits n = digitChar d :: t ∧ d < 10 ∧ (0 < n → 0 < d) := by
  induction n using Nat.strong_induction_on with
  | _ n ih =>
    unfold natDigits
    by_cases h : n < 10
    · rw [dif_pos h]
      exact ⟨n, [], rfl, h, fun hp => hp⟩
    · rw [dif_neg h]
      obtain ⟨d, t, he, hd, hp⟩ := ih (n / 10) (Nat.div_lt_self (by omega) (by omega))
      refine ⟨d, t ++ [digitChar (n % 10)], by rw [he]; rfl, hd, fun _ => ?_⟩
      exact hp (by omega)

/-- Folding one more digit character onto a digit value. -/
theorem digitsVal_append_digit (l : List Char) (c : Char) :
    digitsVal (l ++ [c]) = digitsVal l * 10 + (c.toNat - 48) := by
  simp [digitsVal, List.foldl_append]

/-- The digit fold inverts decimal rendering. -/
theorem digitsVal_natDigits (n : Nat) : digitsVal (natDigits n) = n := by
  induction n using Nat.strong_induction_on with
  | _ n ih =>
    unfold natDigits
    by_cases h : n < 10
    · rw [dif_pos h]
      show digitsVal ([] ++ [digitChar n]) = n
      rw [digitsVal_append_digit, digitChar_toNat h]
      simp [digitsVal]
    · rw [dif_neg h]
      rw [digitsVal_append_digit, ih (n / 10) (Nat.div_lt_self (by omega) (by omega)),
        digitChar_toNat (Nat.mod_lt _ (by omega))]
      omega

/-- A run of satisfying characters followed by a non-satisfying boundary
splits `takeWhile`/`dropWhile` at the boundary. -/
theorem takeWhile_dropWhile_split {p : Char → Bool} (l r : List Char)
    (hl : ∀ c ∈ l, p c = true) (hr : ∀ c, r.head? = some c → p c = false) :
    (l ++ r).takeWhile p = l ∧ (l ++ r).dropWhile p = r := by
  induction l with
  | nil =>
    simp only [List.nil_append]
    cases r with
    | nil => exact ⟨rfl, rfl⟩
    | cons c t =>
      have := hr c rfl
      constructor
      · simp [List.takeWhile, this]
      · simp [List.dropWhile, this]
  | cons c l ih =>
    have hc := hl c (List.mem_cons_self c l)
    have hrec := ih (fun x hx => hl x (List.mem_cons_of_mem c hx))
    simp only [List.cons_append]
    constructor
    · simp [List.takeWhile, hc, hrec.1]
    · simp [List.dropWhile, hc, hrec.2]

/-- `extendsNum rest = false` rules out a leading digit. -/
theorem extendsNum_false_head {rest : List Char} (h : extendsNum rest = false) :
    ∀ c, rest.head? = some c → isDig c = false := by
  intro c hc
  cases rest with
  | nil => simp at hc
  | cons c0 t =>
    have hcc : c0 = c := by simpa using hc
    rw [← hcc]
    simp only [extendsNum, decide_eq_false_iff_not] at h
    cases hbb : isDig c0
    · rfl
    · exact absurd (Or.inl hbb) h

/-- The unsigned scanner inverts decimal rendering when the following text
cannot extend the number token. -/
theorem scanUInt_natDigits (n : Nat) (rest : List Char)
    (hrest : extendsNum rest = false) :
    scanUInt (natDigits n ++ rest) = some (n, rest) := by
  obtain ⟨d, t, he, hd, hpos⟩ := natDigits_head n
  by_cases h0 : n = 0
  · subst h0
    have : natDigits 0 = [digitChar 0] := by unfold natDigits; rfl
    rw [this]
    have h0c : digitChar 0 = '0' := by decide
    rw [h0c]
    show scanUInt ('0' :: rest) = some (0, rest)
    simp [scanUInt, hrest]
  · rw [he]
    have hall : ∀ c ∈ t, isDig c = true := by
      intro c hc
      exact natDigits_all_dig n c (by rw [he]; exact List.mem_cons_of_mem _ hc)
    have hsplit := takeWhile_dropWhile_split t rest hall (extendsNum_false_head hrest)
    show scanUInt (digitChar d :: (t ++ rest)) = some (n, rest)
    have h0t : ('0' : Char).toNat = 48 := by decide
    have hdpos : 0 < d := hpos (Nat.pos_of_ne_zero h0)
    have hne0 : ¬ (digitChar d = '0') :=
      char_ne_of_toNat (by rw [digitChar_toNat hd, h0t]; omega)
    simp only [scanUInt]
    rw [if_neg hne0, if_pos (isDig_digitChar hd)]
    simp only [hsplit.1, hsplit.2]
    rw [hrest]
    have : digitsVal (digitChar d :: t) = n := by
      rw [← he]
      exact digitsVal_natDigits n
    simp [this]

/-- The signed scanner inverts `json.dumps` integer rendering. -/
theorem scanInt_intChars (n : Int) (rest : List Char)
    (hrest : extendsNum rest = false) :
    scanInt (intChars n ++ rest) = some (n, rest) := by
  unfold intChars
  by_cases hn : n < 0
  · rw [if_pos hn]
    show scanInt ('-' :: (natDigits n.natAbs ++ rest)) = some (n, rest)
    simp only [scanInt]
    rw [if_pos trivial, scanUInt_natDigits _ _ hrest]
    show some (-((n.natAbs : Int)), rest) = some (n, rest)
    have habs : -((n.natAbs : Int)) = n := by omega
    rw [habs]
  · rw [if_neg hn]
    obtain ⟨d, t, he, hd, _⟩ := natDigits_head n.natAbs
    rw [he]
    show scanInt (digitChar d :: (t ++ rest)) = some (n, rest)
    simp only [scanInt]
    have hdash : ('-' : Char).toNat = 45 := by decide
    rw [if_neg (char_ne_of_toNat (by rw [digitChar_toNat hd, hdash]; omega))]
    rw [show digitChar d :: (t ++ rest) = (digitChar d :: t) ++ rest from rfl, ← he,
      scanUInt_natDigits _ _ hrest]
    show some (((n.natAbs : Int)), rest) = some (n, rest)
    have habs : ((n.natAbs : Int)) = n := by omega
    rw [habs]

/-! ## String escape round trip -/

/-- Hex digit characters decode to their values. -/
theorem hexVal_digitChar {d : Nat} (h : d < 16) : hexVal (digitChar d) = some d := by
  interval_cases d <;> decide

/-- Four rendered hex digits decode to the rendered value. -/
theorem hex4Val_hex4 (n : Nat) (h : n < 65536) :
    hex4Val (digitChar (n / 4096 % 16)) (digitChar (n / 256 % 16))
      (digitChar (n / 16 % 16)) (digitChar (n % 16)) = some n := by
  unfold hex4Val
  rw [hexVal_digitChar (by omega), hexVal_digitChar (by omega),
    hexVal_digitChar (by omega), hexVal_digitChar (by omega)]
  have harith : n / 4096 % 16 * 4096 + n / 256 % 16 * 256 + n / 16 % 16 * 16 + n % 16 = n := by
    omega
  simp [harith]

/-- Scanning one escaped character peels it off unchanged. -/
theorem scanString_escapeChar (c : Char) (tail : List Char) :
    scanString (escapeChar c ++ tail) =
      (scanString tail).map (fun r => (c :: r.1, r.2)) := by
  have hv := char_valid c
  unfold Nat.isValidChar at hv
  unfold escapeChar
  by_cases h1 : c = '"'
  · subst h1
    rw [if_pos rfl]
    show scanString ('\\' :: '"' :: tail) = _
    simp [scanString, escScan]
  · rw [if_neg h1]
    by_cases h2 : c = '\\'
    · subst h2
      rw [if_pos rfl]
      show scanString ('\\' :: '\\' :: tail) = _
      simp [scanString, escScan]
    · rw [if_neg h2]
      by_cases h3 : c = Char.ofNat 8
      · subst h3
        rw [if_pos rfl]
        show scanString ('\\' :: 'b' :: tail) = _
        simp [scanString, escScan]
      · rw [if_neg h3]
        by_cases h4 : c = Char.ofNat 12
        · subst h4
          rw [if_pos rfl]
          show scanString ('\\' :: 'f' :: tail) = _
          simp [scanString, escScan]
        · rw [if_neg h4]
          by_cases h5 : c = '\n'
          · subst h5
            rw [if_pos rfl]
            show scanString ('\\' :: 'n' :: tail) = _
            simp [scanString, escScan]
          · rw [if_neg h5]
            by_cases h6 : c = '\r'
            · subst h6
              rw [if_pos rfl]
              show scanString ('\\' :: 'r' :: tail) = _
              simp [scanString, escScan]
            · rw [if_neg h6]
              by_cases h7 : c = '\t'
              · subst h7
                rw [if_pos rfl]
                show scanString ('\\' :: 't' :: tail) = _
                simp [scanString, escScan]
              · rw [if_neg h7]
                by_cases h8 : 32 ≤ c.toNat ∧ c.toNat ≤ 126
                · rw [if_pos h8]
                  show scanString (c :: tail) = _
                  simp only [scanString]
                  rw [if_neg h1, if_neg h2, if_neg (by omega)]
                · rw [if_neg h8]
                  by_cases h9 : c.toNat < 65536
                  · rw [if_pos h9]
                    show scanString ('\\' :: 'u' :: (hex4 c.toNat ++ tail)) = _
                    simp only [scanString, escScan, hex4, List.cons_append, List.nil_append]
                    norm_num
                    rw [if_neg (by decide)]
                    simp only [uScan]
                    rw [hex4Val_hex4 c.toNat h9]
                    simp only [Option.some_bind]
                    have hs1 : ¬ (55296 ≤ c.toNat ∧ c.toNat < 56320) := by
                      rcases hv with h | h <;> omega
                    have hs2 : ¬ (56320 ≤ c.toNat ∧ c.toNat < 57344) := by
                      rcases hv with h | h <;> omega
                    rw [if_neg hs1, if_neg hs2, Char.ofNat_toNat]
                  · rw [if_neg h9]
                    show scanString ('\\' :: 'u' ::
                      ((hex4 (55296 + (c.toNat - 65536) / 1024)
                        ++ '\\' :: 'u' :: hex4 (56320 + (c.toNat - 65536) % 1024)) ++ tail)) = _
                    simp only [scanString, escScan, hex4, List.cons_append, List.nil_append,
                      List.append_assoc]
                    norm_num
                    rw [if_neg (by decide)]
                    have hub : c.toNat < 1114112 := by
                      rcases hv with h | h <;> omega
                    simp only [uScan]
                    rw [hex4Val_hex4 (55296 + (c.toNat - 65536) / 1024) (by omega)]
                    rw [Option.some_bind]
                    beta_reduce
                    rw [if_pos (by omega)]
                    simp only [loSurrogateScan]
                    rw [hex4Val_hex4 (56320 + (c.toNat - 65536) % 1024) (by omega)]
                    rw [Option.some_bind]
                    beta_reduce
                    rw [if_pos (by omega)]
                    have harg : 65536 + (55296 + (c.toNat - 65536) / 1024 - 55296) * 1024
                        + (56320 + (c.toNat - 65536) % 1024 - 56320) = c.toNat := by
                      omega
                    rw [harg, Char.ofNat_toNat]

/-- Scanning an escaped body up to the closing quote recovers the body. -/
theorem scanString_escape (s : List Char) (rest : List Char) :
    scanString (escapeString s ++ '"' :: rest) = some (s, rest) := by
  induction s with
  | nil =>
    show scanString ('"' :: rest) = some ([], rest)
    simp [scanString]
  | cons c s ih =>
    show scanString ((escapeChar c ++ escapeString s) ++ '"' :: rest) = some (c :: s, rest)
    rw [List.append_assoc, scanString_escapeChar, ih]
    rfl

/-! ## Well-formed JSON values and parser cost -/

/-- No string occurs twice (unique dict keys). -/
def nodupKeys : List String → Bool
  | [] => true
  | k :: ks => !(ks.contains k) && nodupKeys ks

mutual

/-- A JSON value all of whose objects have unique keys: the image of
Python's data model, where objects are dicts. -/
def Json.wf : Json → Bool
  | Json.arr xs => Json.wfList xs
  | Json.obj kvs => nodupKeys (kvs.map Prod.fst) && Json.wfPairs kvs
  | _ => true
termination_by j => sizeOf j
decreasing_by all_goals simp_wf <;> omega

/-- All members of a list are well-formed. -/
def Json.wfList : List Json → Bool
  | [] => true
  | x :: xs => Json.wf x && Json.wfList xs
termination_by xs => sizeOf xs
decreasing_by all_goals simp_wf <;> omega

/-- All values of a pair list are well-formed. -/
def Json.wfPairs : List (String × Json) → Bool
  | [] => true
  | (_, v) :: ps => Json.wf v && Json.wfPairs ps
termination_by ps => sizeOf ps
decreasing_by all_goals simp_wf <;> omega

end

mutual

/-- Fuel needed by `scanValue` on the serialization of a value. -/
def costV : Json → Nat
  | Json.arr [] => 1
  | Json.arr (x :: xs) => 1 + costItems x xs
  | Json.obj [] => 1
  | Json.obj ((_, v) :: kvs) => 1 + costPairs v kvs
  | _ => 1
termination_by j => sizeOf j
decreasing_by all_goals simp_wf <;> omega

/-- Fuel needed by `scanItems` on serialized array items. -/
def costItems (x : Json) : List Json → Nat
  | [] => 1 + costV x
  | y :: ys => 1 + costV x + costItems y ys
termination_by xs => sizeOf x + sizeOf xs
decreasing_by all_goals simp_wf <;> omega

/-- Fuel needed by `scanMembers` on serialized object members. -/
def costPairs (v : Json) : List (String × Json) → Nat
  | [] => 1 + costV v
  | (_, v2) :: ps => 1 + costV v + costPairs v2 ps
termination_by ps => sizeOf v + sizeOf ps
decreasing_by all_goals simp_wf <;> omega

end

/-! ## Small parsing helper lemmas -/

/-- `String.mk` undoes `String.data`. -/
theorem string_mk_data (s : String) : String.mk s.data = s := by cases s; rfl

/-- `skipWs` keeps a text whose head is not whitespace. -/
theorem skipWs_no_ws {c : Char} (h : isJsonWs c = false) (t : List Char) :
    skipWs (c :: t) = c :: t := by
  simp [skipWs, List.dropWhile_cons, h]

/-- `skipWs` absorbs one leading space. -/
theorem skipWs_space (t : List Char) : skipWs (' ' :: t) = skipWs t := by
  have h : isJsonWs ' ' = true := by decide
  simp [skipWs, List.dropWhile_cons, h]

/-- A digit character differs from any character outside the digit range. -/
theorem digitChar_ne {d : Nat} (hd : d < 10) (c' : Char)
    (h : ¬ (48 ≤ c'.toNat ∧ c'.toNat ≤ 57)) : digitChar d ≠ c' :=
  char_ne_of_toNat (by rw [digitChar_toNat hd]; omega)

/-- Digit characters are not JSON whitespace. -/
theorem isJsonWs_digitChar {d : Nat} (h : d < 10) : isJsonWs (digitChar d) = false := by
  have hsp : (' ' : Char).toNat = 32 := by decide
  have hta : ('\t' : Char).toNat = 9 := by decide
  have hnl : ('\n' : Char).toNat = 10 := by decide
  have hcr : ('\r' : Char).toNat = 13 := by decide
  simp only [isJsonWs, decide_eq_false_iff_not]
  intro hc
  rcases hc with h1 | h1 | h1 | h1 <;>
    (have h2 := congrArg Char.toNat h1; rw [digitChar_toNat h] at h2; omega)

/-- A comma cannot extend a number token. -/
theorem extendsNum_comma (r : List Char) : extendsNum (',' :: r) = false := by
  simp only [extendsNum]
  decide

/-- A closing bracket cannot extend a number token. -/
theorem extendsNum_rbracket (r : List Char) : extendsNum (']' :: r) = false := by
  simp only [extendsNum]
  decide

/-- A closing brace cannot extend a number token. -/
theorem extendsNum_rbrace (r : List Char) : extendsNum (rbrace :: r) = false := by
  simp only [extendsNum]
  decide

/-- The serialization of any value starts with a character that is neither
whitespace nor a closing bracket or brace. -/
theorem serJson_head (j : Json) :
    ∃ c t, serJson j = c :: t ∧ isJsonWs c = false ∧ c ≠ ']' ∧ c ≠ rbrace := by
  cases j with
  | null => exact ⟨'n', ['u', 'l', 'l'], by simp [serJson], by decide, by decide, by decide⟩
  | bool b =>
    cases b with
    | true => exact ⟨'t', ['r', 'u', 'e'], by simp [serJson], by decide, by decide, by decide⟩
    | false =>
      exact ⟨'f', ['a', 'l', 's', 'e'], by simp [serJson], by decide, by decide, by decide⟩
  | num n =>
    have he : serJson (Json.num n) = intChars n := by simp [serJson]
    rw [he]
    unfold intChars
    by_cases hn : n < 0
    · rw [if_pos hn]
      exact ⟨'-', _, rfl, by decide, by decide, by decide⟩
    · rw [if_neg hn]
      obtain ⟨d, t, hd2, hd, _⟩ := natDigits_head n.natAbs
      refine ⟨digitChar d, t, hd2, isJsonWs_digitChar hd, ?_, ?_⟩
      · exact digitChar_ne hd ']' (by decide)
      · exact digitChar_ne hd rbrace (by decide)
  | str s =>
    exact ⟨'"', escapeString s.data ++ ['"'], by simp [serJson], by decide, by decide, by decide⟩
  | arr xs =>
    cases xs with
    | nil => exact ⟨'[', [']'], by simp [serJson], by decide, by decide, by decide⟩
    | cons x xs =>
      exact ⟨'[', serItems x xs ++ [']'], by simp [serJson], by decide, by decide, by decide⟩
  | obj kvs =>
    cases kvs with
    | nil => exact ⟨lbrace, [rbrace], by simp [serJson], by decide, by decide, by decide⟩
    | cons kv kvs =>
      obtain ⟨k, v⟩ := kv
      exact ⟨lbrace, serPairs k v kvs ++ [rbrace], by simp [serJson],
        by decide, by decide, by decide⟩

/-- `nodupKeys` is the boolean form of `List.Nodup`. -/
theorem nodupKeys_iff (l : List String) : nodupKeys l = true ↔ l.Nodup := by
  induction l with
  | nil => simp [nodupKeys]
  | cons k ks ih =>
    simp only [nodupKeys, Bool.and_eq_true, Bool.not_eq_true', ih, List.nodup_cons]
    constructor
    · intro ⟨h1, h2⟩
      refine ⟨fun hm => ?_, h2⟩
      have h1' : List.elem k ks = false := h1
      rw [List.elem_iff.mpr hm] at h1'
      exact absurd h1' (by decide)
    · intro ⟨h1, h2⟩
      refine ⟨?_, h2⟩
      cases hc : ks.contains k
      · rfl
      · exact absurd (List.elem_iff.mp hc) h1

/-- Inserting a fresh key appends it. -/
theorem dictInsert_fresh (kvs : List (String × Json)) (k : String) (v : Json)
    (h : k ∉ kvs.map Prod.fst) : dictInsert kvs k v = kvs ++ [(k, v)] := by
  unfold dictInsert
  rw [if_neg]
  intro hc
  exact h (List.elem_iff.mp hc)

/-- Folding `dictInsert` over pairs with pairwise-fresh keys appends them
all. -/
theorem foldl_dictInsert_fresh (kvs : List (String × Json)) :
    ∀ acc : List (String × Json),
    ((acc ++ kvs).map Prod.fst).Nodup →
    kvs.foldl (fun a p => dictInsert a p.1 p.2) acc = acc ++ kvs := by
  induction kvs with
  | nil =>
    intro acc _
    simp
  | cons kv kvs ih =>
    intro acc hnd
    obtain ⟨k, v⟩ := kv
    have hmap : (acc ++ (k, v) :: kvs).map Prod.fst
        = acc.map Prod.fst ++ k :: kvs.map Prod.fst := by
      simp
    rw [hmap] at hnd
    have hmid := List.nodup_cons.mp (List.nodup_middle.mp hnd)
    have hfresh : k ∉ acc.map Prod.fst := fun hm => hmid.1 (List.mem_append.mpr (Or.inl hm))
    have hnd2 : (((acc ++ [(k, v)]) ++ kvs).map Prod.fst).Nodup := by
      have hmap2 : ((acc ++ [(k, v)]) ++ kvs).map Prod.fst
          = acc.map Prod.fst ++ k :: kvs.map Prod.fst := by
        simp
      rw [hmap2]
      exact hnd
    rw [List.foldl_cons, dictInsert_fresh _ _ _ hfresh, ih (acc ++ [(k, v)]) hnd2]
    simp

/-- On pairs with unique keys, Python's `dict(pairs)` is the identity. -/
theorem dictOfPairs_nodup (kvs : List (String × Json))
    (h : nodupKeys (kvs.map Prod.fst) = true) : dictOfPairs kvs = kvs := by
  have := foldl_dictInsert_fresh kvs [] (by simpa using (nodupKeys_iff _).mp h)
  simpa [dictOfPairs] using this


/-- Every JSON value has positive size. -/
theorem json_sizeOf_pos (j : Json) : 1 ≤ sizeOf j := by
  cases j <;> simp <;> omega

/-- Every value costs at least one unit of fuel. -/
theorem costV_pos (j : Json) : 1 ≤ costV j := by
  cases j with
  | arr xs => cases xs <;> simp [costV] <;> omega
  | obj kvs =>
    cases kvs with
    | nil => simp [costV]
    | cons kv kvs =>
      obtain ⟨k, v⟩ := kv
      simp [costV]
  | null => simp [costV]
  | bool b => simp [costV]
  | num n => simp [costV]
  | str s => simp [costV]

/-- Serialized items start with the first item's serialization. -/
theorem serItems_eq_append (x : Json) (xs : List Json) :
    ∃ s', serItems x xs = serJson x ++ s' := by
  cases xs with
  | nil => exact ⟨[], by simp [serItems]⟩
  | cons y ys => exact ⟨',' :: ' ' :: serItems y ys, by simp [serItems]⟩

/-- Serialized members start with a quote. -/
theorem serPairs_head (k : String) (v : Json) (kvs : List (String × Json)) :
    ∃ s', serPairs k v kvs = '"' :: s' := by
  cases kvs with
  | nil => exact ⟨escapeString k.data ++ '"' :: ':' :: ' ' :: serJson v, by simp [serPairs]⟩
  | cons kv ps =>
    obtain ⟨k2, v2⟩ := kv
    exact ⟨escapeString k.data ++ '"' :: ':' :: ' ' ::
      (serJson v ++ ',' :: ' ' :: serPairs k2 v2 ps), by simp [serPairs]⟩

/-- Completeness of the scanner on serialized text: parsing the
serialization of a well-formed value (followed by any text that cannot
extend a number token) returns exactly that value, given enough fuel; and
correspondingly for serialized array items and object members. -/
theorem scanSer_bundle : ∀ N : Nat,
    (∀ j, sizeOf j ≤ N → Json.wf j = true → ∀ f rest, costV j ≤ f →
      extendsNum rest = false →
      scanValue f (serJson j ++ rest) = some (j, rest)) ∧
    (∀ x xs, sizeOf x + sizeOf xs ≤ N → Json.wfList (x :: xs) = true →
      ∀ f rest, costItems x xs ≤ f →
      scanItems f (serItems x xs ++ ']' :: rest) = some (x :: xs, rest)) ∧
    (∀ k v kvs, sizeOf v + sizeOf kvs ≤ N → Json.wf v = true →
      Json.wfPairs kvs = true → ∀ f rest, costPairs v kvs ≤ f →
      scanMembers f (serPairs k v kvs ++ rbrace :: rest) = some ((k, v) :: kvs, rest)) := by
  intro N
  induction N using Nat.strong_induction_on with
  | _ N IH =>
  refine ⟨?_, ?_, ?_⟩
  · intro j hsz hwf f rest hcost hrest
    obtain ⟨f', rfl⟩ : ∃ f', f = f' + 1 := ⟨f - 1, by have := costV_pos j; omega⟩
    cases j with
    | null =>
      have he : serJson Json.null = ['n', 'u', 'l', 'l'] := by simp [serJson]
      rw [he]
      show scanValue (f' + 1) ('n' :: 'u' :: 'l' :: 'l' :: rest) = _
      simp [scanValue, expectLit, List.isPrefixOf, eq_false (show ¬ ('n' = lbrace) by decide)]
    | bool b =>
      cases b with
      | true =>
        have he : serJson (Json.bool true) = ['t', 'r', 'u', 'e'] := by simp [serJson]
        rw [he]
        show scanValue (f' + 1) ('t' :: 'r' :: 'u' :: 'e' :: rest) = _
        simp [scanValue, expectLit, List.isPrefixOf, eq_false (show ¬ ('t' = lbrace) by decide)]
      | false =>
        have he : serJson (Json.bool false) = ['f', 'a', 'l', 's', 'e'] := by simp [serJson]
        rw [he]
        show scanValue (f' + 1) ('f' :: 'a' :: 'l' :: 's' :: 'e' :: rest) = _
        simp [scanValue, expectLit, List.isPrefixOf, eq_false (show ¬ ('f' = lbrace) by decide)]
    | num n =>
      have he : serJson (Json.num n) = intChars n := by simp [serJson]
      rw [he]
      by_cases hn : n < 0
      · have he2 : intChars n = '-' :: natDigits n.natAbs := by
          unfold intChars
          rw [if_pos hn]
        rw [he2]
        show scanValue (f' + 1) ('-' :: (natDigits n.natAbs ++ rest)) = _
        simp only [scanValue]
        rw [if_neg (by decide), if_neg (by decide), if_neg (by decide), if_neg (by decide),
          if_neg (by decide), if_neg (by decide), if_pos (Or.inl trivial)]
        rw [show '-' :: (natDigits n.natAbs ++ rest) = intChars n ++ rest from by
          rw [he2]; rfl]
        rw [scanInt_intChars n rest hrest]
        rfl
      · obtain ⟨d, t, hdt, hd, _⟩ := natDigits_head n.natAbs
        have he2 : intChars n = digitChar d :: t := by
          unfold intChars
          rw [if_neg hn, hdt]
        rw [he2]
        show scanValue (f' + 1) (digitChar d :: (t ++ rest)) = _
        simp only [scanValue]
        rw [if_neg (digitChar_ne hd '"' (by decide)), if_neg (digitChar_ne hd '[' (by decide)),
          if_neg (digitChar_ne hd lbrace (by decide)), if_neg (digitChar_ne hd 'n' (by decide)),
          if_neg (digitChar_ne hd 't' (by decide)), if_neg (digitChar_ne hd 'f' (by decide)),
          if_pos (Or.inr (isDig_digitChar hd))]
        rw [show digitChar d :: (t ++ rest) = intChars n ++ rest from by rw [he2]; rfl]
        rw [scanInt_intChars n rest hrest]
        rfl
    | str s =>
      have he : serJson (Json.str s) ++ rest = '"' :: (escapeString s.data ++ '"' :: rest) := by
        simp [serJson]
      rw [he]
      simp only [scanValue]
      rw [if_pos trivial, scanString_escape]
      simp [string_mk_data]
    | arr xs =>
      cases xs with
      | nil =>
        have he : serJson (Json.arr []) ++ rest = '[' :: ']' :: rest := by simp [serJson]
        rw [he]
        simp only [scanValue]
        rw [if_neg (by decide), if_pos trivial, skipWs_no_ws (by decide)]
        simp only [scanArrBody]
        rw [if_pos trivial]
      | cons x xs =>
        obtain ⟨s', hs'⟩ := serItems_eq_append x xs
        obtain ⟨c0, t0, hc0, hws0, hnb0, _⟩ := serJson_head x
        have he : serJson (Json.arr (x :: xs)) ++ rest
            = '[' :: (serItems x xs ++ ']' :: rest) := by simp [serJson]
        rw [he]
        simp only [scanValue]
        rw [if_neg (by decide), if_pos trivial]
        have hsplit : serItems x xs ++ ']' :: rest = c0 :: (t0 ++ s' ++ ']' :: rest) := by
          rw [hs', hc0]
          simp
        rw [hsplit, skipWs_no_ws hws0]
        simp only [scanArrBody]
        rw [if_neg hnb0, ← hsplit]
        have hlt : sizeOf x + sizeOf xs < N := by
          simp only [Json.arr.sizeOf_spec, List.cons.sizeOf_spec] at hsz
          omega
        have hwfl : Json.wfList (x :: xs) = true := by
          simpa [Json.wf] using hwf
        have hcost2 : costItems x xs ≤ f' := by
          simp only [costV] at hcost
          omega
        rw [(IH (sizeOf x + sizeOf xs) hlt).2.1 x xs le_rfl hwfl f' rest hcost2]
        rfl
    | obj kvs =>
      cases kvs with
      | nil =>
        have he : serJson (Json.obj []) ++ rest = lbrace :: rbrace :: rest := by
          simp [serJson]
        rw [he]
        simp only [scanValue]
        rw [if_neg (by decide), if_neg (by decide), if_pos trivial, skipWs_no_ws (by decide)]
        simp only [scanObjBody]
        rw [if_pos trivial]
      | cons kv kvs =>
        obtain ⟨k, v⟩ := kv
        obtain ⟨s', hs'⟩ := serPairs_head k v kvs
        have he : serJson (Json.obj ((k, v) :: kvs)) ++ rest
            = lbrace :: (serPairs k v kvs ++ rbrace :: rest) := by simp [serJson]
        rw [he]
        simp only [scanValue]
        rw [if_neg (by decide), if_neg (by decide), if_pos trivial]
        have hsplit : serPairs k v kvs ++ rbrace :: rest = '"' :: (s' ++ rbrace :: rest) := by
          rw [hs']
          simp
        rw [hsplit, skipWs_no_ws (by decide)]
        simp only [scanObjBody]
        rw [if_neg (by decide), ← hsplit]
        have hlt : sizeOf v + sizeOf kvs < N := by
          simp only [Json.obj.sizeOf_spec, List.cons.sizeOf_spec, Prod.mk.sizeOf_spec] at hsz
          omega
        have hwf2 : Json.wf v = true ∧ Json.wfPairs kvs = true ∧
            nodupKeys (((k, v) :: kvs).map Prod.fst) = true := by
          have h1 : nodupKeys (((k, v) :: kvs).map Prod.fst) = true
              ∧ Json.wfPairs ((k, v) :: kvs) = true := by
            simpa [Json.wf, Bool.and_eq_true] using hwf
          have h2 : Json.wf v = true ∧ Json.wfPairs kvs = true := by
            simpa [Json.wfPairs, Bool.and_eq_true] using h1.2
          exact ⟨h2.1, h2.2, h1.1⟩
        have hcost2 : costPairs v kvs ≤ f' := by
          simp only [costV] at hcost
          omega
        rw [(IH (sizeOf v + sizeOf kvs) hlt).2.2 k v kvs le_rfl hwf2.1 hwf2.2.1 f' rest hcost2]
        show some (Json.obj (dictOfPairs ((k, v) :: kvs)), rest) = _
        rw [dictOfPairs_nodup _ hwf2.2.2]
  · intro x xs hsz hwfl f rest hcost
    obtain ⟨f', rfl⟩ : ∃ f', f = f' + 1 := ⟨f - 1, by
      have h2 : 1 ≤ costItems x xs := by
        have := costV_pos x
        cases xs <;> simp only [costItems] <;> omega
      omega⟩
    have hwfx : Json.wf x = true ∧ Json.wfList xs = true := by
      simpa [Json.wfList, Bool.and_eq_true] using hwfl
    cases xs with
    | nil =>
      have he : serItems x [] ++ ']' :: rest = serJson x ++ ']' :: rest := by
        simp [serItems]
      rw [he]
      simp only [scanItems]
      have hltx : sizeOf x < N := by
        simp only [List.nil.sizeOf_spec] at hsz
        omega
      have hcx : costV x ≤ f' := by
        simp only [costItems] at hcost
        omega
      rw [(IH (sizeOf x) hltx).1 x le_rfl hwfx.1 f' (']' :: rest) hcx (extendsNum_rbracket rest)]
      rw [Option.some_bind]
      beta_reduce
      rw [skipWs_no_ws (by decide)]
      simp only [afterItemVal]
      rw [if_pos trivial]
    | cons y ys =>
      have he : serItems x (y :: ys) ++ ']' :: rest
          = serJson x ++ ',' :: ' ' :: (serItems y ys ++ ']' :: rest) := by
        simp [serItems]
      rw [he]
      simp only [scanItems]
      have hltx : sizeOf x < N := by
        simp only [List.cons.sizeOf_spec] at hsz
        have := json_sizeOf_pos y
        omega
      have hcx : costV x ≤ f' := by
        simp only [costItems] at hcost
        omega
      rw [(IH (sizeOf x) hltx).1 x le_rfl hwfx.1 f'
        (',' :: ' ' :: (serItems y ys ++ ']' :: rest)) hcx (extendsNum_comma _)]
      rw [Option.some_bind]
      beta_reduce
      rw [skipWs_no_ws (by decide)]
      simp only [afterItemVal]
      rw [if_neg (by decide), if_pos trivial, skipWs_space]
      obtain ⟨s', hs'⟩ := serItems_eq_append y ys
      obtain ⟨c0, t0, hc0, hws0, _, _⟩ := serJson_head y
      have hsplit : serItems y ys ++ ']' :: rest = c0 :: (t0 ++ s' ++ ']' :: rest) := by
        rw [hs', hc0]
        simp
      rw [hsplit, skipWs_no_ws hws0, ← hsplit]
      have hlt : sizeOf y + sizeOf ys < N := by
        simp only [List.cons.sizeOf_spec] at hsz
        have := json_sizeOf_pos x
        omega
      have hcyys : costItems y ys ≤ f' := by
        simp only [costItems] at hcost
        omega
      rw [(IH (sizeOf y + sizeOf ys) hlt).2.1 y ys le_rfl hwfx.2 f' rest hcyys]
      rfl
  · intro k v kvs hsz hwfv hwfp f rest hcost
    obtain ⟨f', rfl⟩ : ∃ f', f = f' + 1 := ⟨f - 1, by
      have h2 : 1 ≤ costPairs v kvs := by
        have := costV_pos v
        cases kvs with
        | nil => simp only [costPairs]; omega
        | cons kv2 ps =>
          obtain ⟨k2, v2⟩ := kv2
          simp only [costPairs]
          omega
      omega⟩
    obtain ⟨cv, tv, hcv, hwsv, _, _⟩ := serJson_head v
    cases kvs with
    | nil =>
      have he : serPairs k v [] ++ rbrace :: rest
          = '"' :: (escapeString k.data ++ '"' ::
              (':' :: ' ' :: (serJson v ++ rbrace :: rest))) := by
        simp [serPairs]
      rw [he]
      simp only [scanMembers]
      rw [scanString_escape]
      rw [Option.some_bind]
      beta_reduce
      rw [skipWs_no_ws (by decide)]
      simp only [afterKey]
      rw [if_pos trivial, skipWs_space]
      have hsplitv : serJson v ++ rbrace :: rest = cv :: (tv ++ rbrace :: rest) := by
        rw [hcv]
        simp
      rw [hsplitv, skipWs_no_ws hwsv, ← hsplitv]
      have hltv : sizeOf v < N := by
        simp only [List.nil.sizeOf_spec] at hsz
        omega
      have hcvv : costV v ≤ f' := by
        simp only [costPairs] at hcost
        omega
      rw [(IH (sizeOf v) hltv).1 v le_rfl hwfv f' (rbrace :: rest) hcvv (extendsNum_rbrace rest)]
      rw [Option.some_bind]
      beta_reduce
      rw [skipWs_no_ws (by decide)]
      simp only [afterMemberVal]
      rw [if_pos trivial, string_mk_data]
    | cons kv2 ps =>
      obtain ⟨k2, v2⟩ := kv2
      have he : serPairs k v ((k2, v2) :: ps) ++ rbrace :: rest
          = '"' :: (escapeString k.data ++ '"' ::
              (':' :: ' ' :: (serJson v ++
                ',' :: ' ' :: (serPairs k2 v2 ps ++ rbrace :: rest)))) := by
        simp [serPairs]
      rw [he]
      simp only [scanMembers]
      rw [scanString_escape]
      rw [Option.some_bind]
      beta_reduce
      rw [skipWs_no_ws (by decide)]
      simp only [afterKey]
      rw [if_pos trivial, skipWs_space]
      have hsplitv : serJson v ++ ',' :: ' ' :: (serPairs k2 v2 ps ++ rbrace :: rest)
          = cv :: (tv ++ ',' :: ' ' :: (serPairs k2 v2 ps ++ rbrace :: rest)) := by
        rw [hcv]
        simp
      rw [hsplitv, skipWs_no_ws hwsv, ← hsplitv]
      have hltv : sizeOf v < N := by
        simp only [List.cons.sizeOf_spec] at hsz
        have := json_sizeOf_pos v2
        omega
      have hcvv : costV v ≤ f' := by
        simp only [costPairs] at hcost
        omega
      rw [(IH (sizeOf v) hltv).1 v le_rfl hwfv f'
        (',' :: ' ' :: (serPairs k2 v2 ps ++ rbrace :: rest)) hcvv (extendsNum_comma _)]
      rw [Option.some_bind]
      beta_reduce
      rw [skipWs_no_ws (by decide)]
      simp only [afterMemberVal]
      rw [if_neg (by decide), if_pos trivial, skipWs_space]
      obtain ⟨s', hs'⟩ := serPairs_head k2 v2 ps
      have hsplit2 : serPairs k2 v2 ps ++ rbrace :: rest = '"' :: (s' ++ rbrace :: rest) := by
        rw [hs']
        simp
      rw [hsplit2, skipWs_no_ws (by decide), ← hsplit2]
      have hwf2 : Json.wf v2 = true ∧ Json.wfPairs ps = true := by
        simpa [Json.wfPairs, Bool.and_eq_true] using hwfp
      have hlt2 : sizeOf v2 + sizeOf ps < N := by
        simp only [List.cons.sizeOf_spec, Prod.mk.sizeOf_spec] at hsz
        have := json_sizeOf_pos v
        omega
      have hc2 : costPairs v2 ps ≤ f' := by
        simp only [costPairs] at hcost
        omega
      rw [(IH (sizeOf v2 + sizeOf ps) hlt2).2.2 k2 v2 ps le_rfl hwf2.1 hwf2.2 f' rest hc2]
      rw [string_mk_data]
      rfl

/-- The scanner fuel needed for serialized text is at most its length plus
one, so `jsonLoads`'s fuel suffices. -/
theorem cost_le_len_bundle : ∀ N : Nat,
    (∀ j, sizeOf j ≤ N → costV j ≤ (serJson j).length) ∧
    (∀ x xs, sizeOf x + sizeOf xs ≤ N → costItems x xs ≤ (serItems x xs).length + 1) ∧
    (∀ k v kvs, sizeOf v + sizeOf kvs ≤ N →
      costPairs v kvs ≤ (serPairs k v kvs).length + 1) := by
  intro N
  induction N using Nat.strong_induction_on with
  | _ N IH =>
  refine ⟨?_, ?_, ?_⟩
  · intro j hsz
    cases j with
    | null => simp [costV, serJson]
    | bool b => cases b <;> simp [costV, serJson]
    | num n =>
      obtain ⟨d, t, hdt, _, _⟩ := natDigits_head n.natAbs
      have h1 : 1 ≤ (natDigits n.natAbs).length := by
        rw [hdt]
        simp
      simp only [costV, serJson]
      unfold intChars
      by_cases hn : n < 0
      · rw [if_pos hn]
        simp
      · rw [if_neg hn]
        omega
    | str s => simp [costV, serJson]
    | arr xs =>
      cases xs with
      | nil => simp [costV, serJson]
      | cons x xs =>
        have hlt : sizeOf x + sizeOf xs < N := by
          simp only [Json.arr.sizeOf_spec, List.cons.sizeOf_spec] at hsz
          omega
        have h2 := (IH (sizeOf x + sizeOf xs) hlt).2.1 x xs le_rfl
        simp only [costV, serJson, List.length_cons, List.length_append]
        simp at h2 ⊢
        omega
    | obj kvs =>
      cases kvs with
      | nil => simp [costV, serJson]
      | cons kv kvs =>
        obtain ⟨k, v⟩ := kv
        have hlt : sizeOf v + sizeOf kvs < N := by
          simp only [Json.obj.sizeOf_spec, List.cons.sizeOf_spec, Prod.mk.sizeOf_spec] at hsz
          omega
        have h2 := (IH (sizeOf v + sizeOf kvs) hlt).2.2 k v kvs le_rfl
        simp only [costV, serJson, List.length_cons, List.length_append]
        simp at h2 ⊢
        omega
  · intro x xs hsz
    cases xs with
    | nil =>
      have hlt : sizeOf x < N := by
        simp only [List.nil.sizeOf_spec] at hsz
        omega
      have h1 := (IH (sizeOf x) hlt).1 x le_rfl
      simp only [costItems, serItems]
      omega
    | cons y ys =>
      have hltx : sizeOf x < N := by
        simp only [List.cons.sizeOf_spec] at hsz
        have := json_sizeOf_pos y
        omega
      have hlt : sizeOf y + sizeOf ys < N := by
        simp only [List.cons.sizeOf_spec] at hsz
        have := json_sizeOf_pos x
        omega
      have h1 := (IH (sizeOf x) hltx).1 x le_rfl
      have h2 := (IH (sizeOf y + sizeOf ys) hlt).2.1 y ys le_rfl
      simp only [costItems, serItems, List.length_append, List.length_cons]
      omega
  · intro k v kvs hsz
    cases kvs with
    | nil =>
      have hlt : sizeOf v < N := by
        simp only [List.nil.sizeOf_spec] at hsz
        omega
      have h1 := (IH (sizeOf v) hlt).1 v le_rfl
      simp only [costPairs, serPairs, List.length_append, List.length_cons]
      omega
    | cons kv2 ps =>
      obtain ⟨k2, v2⟩ := kv2
      have hltv : sizeOf v < N := by
        simp only [List.cons.sizeOf_spec, Prod.mk.sizeOf_spec] at hsz
        have := json_sizeOf_pos v2
        omega
      have hlt2 : sizeOf v2 + sizeOf ps < N := by
        simp only [List.cons.sizeOf_spec, Prod.mk.sizeOf_spec] at hsz
        have := json_sizeOf_pos v
        omega
      have h1 := (IH (sizeOf v) hltv).1 v le_rfl
      have h2 := (IH (sizeOf v2 + sizeOf ps) hlt2).2.2 k2 v2 ps le_rfl
      simp only [costPairs, serPairs, List.length_append, List.length_cons]
      omega

/-- `json.loads` inverts `json.dumps` on well-formed values. -/
theorem jsonLoads_serJson (j : Json) (h : Json.wf j = true) :
    jsonLoads (serJson j) = some j := by
  unfold jsonLoads
  obtain ⟨c, t, hc, hws, _, _⟩ := serJson_head j
  have hskip : skipWs (serJson j) = serJson j := by
    rw [hc]
    exact skipWs_no_ws hws t
  rw [hskip]
  have hcost : costV j ≤ (serJson j).length + 1 := by
    have := (cost_le_len_bundle (sizeOf j)).1 j le_rfl
    omega
  have hmain := (scanSer_bundle (sizeOf j)).1 j le_rfl h ((serJson j).length + 1) []
    hcost (by simp [extendsNum])
  rw [List.append_nil] at hmain
  rw [hmain]
  simp [skipWs]

/-! ## Evaluation helpers for concrete byte strings -/

/-- No JSON value starts at a NUL character. -/
theorem scanValue_nul (f : Nat) (cs : List Char) :
    scanValue f (Char.ofNat 0 :: cs) = none := by
  cases f with
  | zero => simp only [scanValue]
  | succ f =>
    simp only [scanValue]
    rw [if_neg (by decide), if_neg (by decide), if_neg (by decide),
      if_neg (by decide), if_neg (by decide), if_neg (by decide),
      if_neg (by decide)]

/-- A document starting at a NUL character is rejected by `json.loads`. -/
theorem jsonLoads_nul_head (cs : List Char) :
    jsonLoads (Char.ofNat 0 :: cs) = none := by
  unfold jsonLoads
  rw [skipWs_no_ws (by decide), scanValue_nul]

/-- Decoding steps over a single ASCII byte. -/
theorem utf8Decode_ascii_cons {b : Nat} (h : b < 128) (bs : List Nat) :
    utf8Decode (b :: bs) = (utf8Decode bs).map (Char.ofNat b :: ·) := by
  conv_lhs => rw [utf8Decode]
  rw [if_pos h]

/-- ASCII text encodes to one byte per character. -/
theorem utf8Encode_ascii_length (cs : List Char) (h : ∀ c ∈ cs, c.toNat < 128) :
    (utf8Encode cs).length = cs.length := by
  induction cs with
  | nil => rfl
  | cons c t ih =>
    have hc : c.toNat < 128 := h c (by simp)
    have ht := ih (fun x hx => h x (by simp [hx]))
    have hec : utf8EncodeChar c = [c.toNat] := by
      simp only [utf8EncodeChar]
      rw [if_pos hc]
    simp only [utf8Encode] at ht ⊢
    simp only [List.map_cons, List.flatten_cons, List.length_append, hec,
      List.length_cons, List.length_nil, ht]
    omega

/-- `from_bytes` fails whenever the decoded text fails `json.loads`. -/
theorem from_bytes_none_of_loads_none (data : List Nat) (cs : List Char)
    (hdec : utf8Decode data = some cs) (hload : jsonLoads cs = none) :
    IPCMessage.from_bytes data = none := by
  unfold IPCMessage.from_bytes
  rw [hdec]
  simp only [hload]

/-- `from_bytes` on input whose text parses to an object: the remaining
steps are the two dict lookups. -/
theorem from_bytes_of_obj (data : List Nat) (cs : List Char) (kvs : List (String × Json))
    (hdec : utf8Decode data = some cs) (hload : jsonLoads cs = some (Json.obj kvs)) :
    IPCMessage.from_bytes data =
      match dictGet kvs "action" with
      | none => none
      | some a => some ⟨a, (dictGet kvs "payload").getD (Json.obj [])⟩ := by
  unfold IPCMessage.from_bytes
  rw [hdec]
  simp only [hload]

/-- The required-env-var loop on a single entry whose raw value is
`"${" ++ inner ++ "}"` (for any `inner`, including one that itself contains
`}` or `${`): the error fires exactly when the ambient value of
`String.mk inner` is falsy, and it names `String.mk inner`. -/
theorem required_env_error_single (environ : String → Option String) (serverName k : String)
    (inner : List Char) (v : String)
    (hv : v.data = '$' :: lbrace :: (inner ++ [rbrace])) :
    required_env_error environ serverName [(k, v)] =
      if isFalsyEnv (environ (String.mk inner)) then
        some (missingEnvMessage (String.mk inner) serverName)
      else none := by
  have hpre : ['$', lbrace].isPrefixOf v.data = true := by
    rw [hv]; simp [List.isPrefixOf]
  have hsuf : [rbrace].isSuffixOf v.data = true := by
    rw [hv]; simp [List.isSuffixOf, List.isPrefixOf]
  have hinner : (v.data.drop 2).dropLast = inner := by
    rw [hv]; simp [List.dropLast_concat]
  unfold required_env_error
  rw [List.findSome?_cons]
  simp only [hpre, hsuf, hinner]
  cases hfalsy : isFalsyEnv (environ (String.mk inner)) <;>
    simp [hfalsy, List.findSome?]

/-- `_resolve_env_vars` on the single full placeholder `"${D}"` with `D`
bound to `"val"`. -/
theorem resolve_env_vars_D_example :
    resolve_env_vars (fun k => if k = "D" then some "val" else none) "$\x7bD\x7d" = "val" := by
  have h1 : ("$\x7bD\x7d" : String).data = ['$', lbrace, 'D', rbrace] := rfl
  have h2 : String.mk ['D'] = "D" := rfl
  have h3 : ("val" : String).data = ['v', 'a', 'l'] := rfl
  have h4 : String.mk ['v', 'a', 'l'] = "val" := rfl
  simp +decide [resolve_env_vars, h1, h2, h3, h4, findPlaceholders, List.dropWhile,
    List.takeWhile, pyReplace]

/-- `_resolve_env_vars` on the partial-placeholder value `"${A}-${B}"` with
`A` bound to `"1"` and `B` unset: both placeholders are substituted, the
unset one by the empty string. -/
theorem resolve_env_vars_partial_example :
    resolve_env_vars (fun x => if x = "A" then some "1" else none) "$\x7bA\x7d-$\x7bB\x7d"
      = "1-" := by
  have h1 : ("$\x7bA\x7d-$\x7bB\x7d" : String).data =
      ['$', lbrace, 'A', rbrace, '-', '$', lbrace, 'B', rbrace] := rfl
  have h2 : String.mk ['A'] = "A" := rfl
  have h2b : String.mk ['B'] = "B" := rfl
  have h3 : ("1" : String).data = ['1'] := rfl
  have h3b : ("" : String).data = [] := rfl
  have h4 : String.mk ['1', '-'] = "1-" := rfl
  simp +decide [resolve_env_vars, h1, h2, h2b, h3, h3b, h4, findPlaceholders,
    List.dropWhile, List.takeWhile, pyReplace]

/-- An infix stays an infix under prepending. -/
theorem infix_append_lift_left {α : Type} {l m : List α} (x : List α) (h : l <:+: m) :
    l <:+: x ++ m :=
  h.trans (List.suffix_append x m).isInfix

/-- An infix stays an infix under appending. -/
theorem infix_append_lift_right {α : Type} {l m : List α} (y : List α) (h : l <:+: m) :
    l <:+: m ++ y :=
  h.trans (List.prefix_append m y).isInfix

/-- Every member of the joined list occurs in the joined string. -/
theorem joinSep_mem_substring (sep s : String) (l : List String) (h : s ∈ l) :
    s.data <:+: (joinSep sep l).data := by
  induction l with
  | nil => simp at h
  | cons x ys ih =>
    cases ys with
    | nil =>
      simp at h
      subst h
      exact List.infix_refl _
    | cons y ys' =>
      rcases List.mem_cons.mp h with h1 | h2
      · subst h1
        simp only [joinSep, String.data_append]
        rw [List.append_assoc]
        exact (List.prefix_append _ _).isInfix
      · have hi := ih h2
        simp only [joinSep, String.data_append]
        exact infix_append_lift_left _ hi

/-- The accumulated tool list of a refresh is the concatenation of the
successful outcomes. -/
theorem refreshCollect_fst (l : List (String × Except String (List ToolInfo))) :
    (refreshCollect l).1 = l.flatMap (fun p =>
      match p.2 with | Except.ok ts => ts | Except.error _ => []) := by
  induction l with
  | nil => rfl
  | cons p rest ih =>
    obtain ⟨n, r⟩ := p
    cases r <;> simp [refreshCollect, ih]

/-- The failure counter of a refresh counts the failed outcomes. -/
theorem refreshCollect_snd (l : List (String × Except String (List ToolInfo))) :
    (refreshCollect l).2 = l.countP (fun p => !p.2.isOk) := by
  induction l with
  | nil => rfl
  | cons p rest ih =>
    obtain ⟨n, r⟩ := p
    cases r <;> simp [refreshCollect, ih, List.countP_cons, Except.isOk, Except.toBool]

/-! ## The claims -/

/-- Claim C1 (corrected): the round trip holds only once the 4-byte
big-endian length prefix written by `to_bytes` is stripped, because
`from_bytes` parses its whole input as JSON and never consumes the prefix
(every caller in the source strips it first). For every message whose
fields are well-formed JSON values, `from_bytes` on the prefix-stripped
serialization returns the message itself. -/
theorem from_bytes_to_bytes_drop4 (m : IPCMessage) (ha : Json.wf m.action = true)
    (hp : Json.wf m.payload = true) :
    IPCMessage.from_bytes ((IPCMessage.to_bytes m).drop 4) = some m := by
  obtain ⟨a, p⟩ := m
  simp only at ha hp
  have hwf : Json.wf (Json.obj [("action", a), ("payload", p)]) = true := by
    simp only [Json.wf, Json.wfPairs, List.map_cons, List.map_nil, nodupKeys]
    simp [ha, hp]
  simp only [IPCMessage.to_bytes]
  have hdrop : ∀ (n : Nat) (l : List Nat), (be32 n ++ l).drop 4 = l :=
    fun n l => List.drop_left (be32 n) l
  rw [hdrop]
  rw [from_bytes_of_obj _ _ _ (utf8_roundtrip _) (jsonLoads_serJson _ hwf)]
  simp [dictGet, List.lookup]

/-- The round trip of claim C1 instantiated at the `ping` message with an
empty payload. -/
theorem from_bytes_to_bytes_drop4_witness :
    (Json.wf (Json.str "ping") = true ∧ Json.wf (Json.obj []) = true) ∧
    IPCMessage.from_bytes ((IPCMessage.to_bytes ⟨Json.str "ping", Json.obj []⟩).drop 4) =
      some ⟨Json.str "ping", Json.obj []⟩ :=
  ⟨⟨by simp [Json.wf], by simp [Json.wf, Json.wfPairs, nodupKeys]⟩,
    from_bytes_to_bytes_drop4 ⟨Json.str "ping", Json.obj []⟩ (by simp [Json.wf])
      (by simp [Json.wf, Json.wfPairs, nodupKeys])⟩

/-- The claim C1 wording is false as stated: with the 4-byte prefix kept,
`from_bytes (to_bytes m)` fails on the `ping` message with empty payload
(the first prefix byte decodes to a NUL character, which `json.loads`
rejects), so it does not return the message. -/
theorem from_bytes_to_bytes_with_prefix_fails :
    IPCMessage.from_bytes (IPCMessage.to_bytes ⟨Json.str "ping", Json.obj []⟩) = none ∧
    IPCMessage.from_bytes (IPCMessage.to_bytes ⟨Json.str "ping", Json.obj []⟩) ≠
      some ⟨Json.str "ping", Json.obj []⟩ := by
  have hser : serJson (Json.obj [("action", Json.str "ping"), ("payload", Json.obj [])]) =
      [lbrace, '"', 'a', 'c', 't', 'i', 'o', 'n', '"', ':', ' ', '"', 'p', 'i', 'n', 'g', '"',
       ',', ' ', '"', 'p', 'a', 'y', 'l', 'o', 'a', 'd', '"', ':', ' ', lbrace, rbrace,
       rbrace] := by
    simp +decide [serJson, serPairs, escapeString, escapeChar]
  have hascii : ∀ c ∈ [lbrace, '"', 'a', 'c', 't', 'i', 'o', 'n', '"', ':', ' ', '"', 'p', 'i',
      'n', 'g', '"', ',', ' ', '"', 'p', 'a', 'y', 'l', 'o', 'a', 'd', '"', ':', ' ', lbrace,
      rbrace, rbrace], c.toNat < 128 := by decide
  have hlen : (utf8Encode (serJson (Json.obj [("action", Json.str "ping"),
      ("payload", Json.obj [])]))).length = 33 := by
    rw [hser, utf8Encode_ascii_length _ hascii]
    rfl
  have hmain : IPCMessage.from_bytes
      (IPCMessage.to_bytes ⟨Json.str "ping", Json.obj []⟩) = none := by
    simp only [IPCMessage.to_bytes]
    rw [hlen]
    rw [show be32 33 = [0, 0, 0, 33] by decide]
    simp only [List.cons_append, List.nil_append]
    have hdec : utf8Decode (0 :: 0 :: 0 :: 33 :: utf8Encode (serJson (Json.obj
        [("action", Json.str "ping"), ("payload", Json.obj [])]))) =
        some (Char.ofNat 0 :: Char.ofNat 0 :: Char.ofNat 0 :: Char.ofNat 33 ::
          serJson (Json.obj [("action", Json.str "ping"), ("payload", Json.obj [])])) := by
      rw [utf8Decode_ascii_cons (by decide), utf8Decode_ascii_cons (by decide),
        utf8Decode_ascii_cons (by decide), utf8Decode_ascii_cons (by decide), utf8_roundtrip]
      rfl
    exact from_bytes_none_of_loads_none _ _ hdec (jsonLoads_nul_head _)
  exact ⟨hmain, by simp [hmain]⟩

/-- Claim C2 (corrected): the missing-required-env-var check of
`ConnectionManager.connect` is a syntactic test on the raw value —
`value.startswith("${") and value.endswith("}")` — not a test that the value
is a single full placeholder. For a configured server whose one env entry
has raw value `"${" ++ inner ++ "}"` (any `inner`, including one containing
further `}` or `${` as in `"${A}-${B}"`), connect raises the missing-env
error exactly when the ambient value of the variable named `value[2:-1]` is
unset or empty. -/
theorem connect_missing_env_guard (environ : String → Option String)
    (configPath name command : String) (args : List String) (k : String)
    (inner : List Char) (v : String)
    (hv : v.data = '$' :: lbrace :: (inner ++ [rbrace])) :
    isMissingEnvError
      (ConnectionManager.connect_prelude [(name, ⟨name, command, args, [(k, v)]⟩)]
        configPath environ name) = isFalsyEnv (environ (String.mk inner)) := by
  have hg : ConnectionManager.get_server_config
      [(name, (⟨name, command, args, [(k, v)]⟩ : ServerConfig))] configPath name =
      Except.ok ⟨name, command, args, [(k, v)]⟩ := by
    simp [ConnectionManager.get_server_config, List.lookup]
  have hr := required_env_error_single environ name k inner v hv
  unfold ConnectionManager.connect_prelude
  simp only [hg, hr]
  cases isFalsyEnv (environ (String.mk inner)) <;> simp [isMissingEnvError]

/-- The guard of claim C2 instantiated at the single full placeholder
`"${PATH}"` with an empty ambient environment: connect raises. -/
theorem connect_missing_env_guard_witness :
    (("$\x7bPATH\x7d" : String).data = '$' :: lbrace :: (['P', 'A', 'T', 'H'] ++ [rbrace])) ∧
    isMissingEnvError
      (ConnectionManager.connect_prelude
        [("pg", ⟨"pg", "cmd", [], [("KEY", "$\x7bPATH\x7d")]⟩)] "cfg"
        (fun _ => none) "pg") =
      isFalsyEnv ((fun _ => (none : Option String)) (String.mk ['P', 'A', 'T', 'H'])) :=
  ⟨rfl, connect_missing_env_guard (fun _ => none) "cfg" "pg" "cmd" [] "KEY"
    ['P', 'A', 'T', 'H'] "$\x7bPATH\x7d" rfl⟩

set_option maxRecDepth 8000 in
/-- The claim C2 wording is false for partial placeholders: with `A` set to
`"1"` and `B` unset, the value `"${A}-${B}"` does resolve to `"1-"` under
`_resolve_env_vars`, yet `ConnectionManager.connect` raises the missing-env
error anyway — the startswith/endswith guard matches and the (nonexistent)
variable `A}-${B` is looked up and found unset. -/
theorem partial_placeholder_still_errors :
    ((fun x => if x = "A" then some "1" else none) "A" = some "1") ∧
    ((fun x => if x = "A" then some "1" else none) "B" = (none : Option String)) ∧
    resolve_env_vars (fun x => if x = "A" then some "1" else none) "$\x7bA\x7d-$\x7bB\x7d"
      = "1-" ∧
    isMissingEnvError
      (ConnectionManager.connect_prelude
        [("srv", ⟨"srv", "cmd", [], [("X", "$\x7bA\x7d-$\x7bB\x7d")]⟩)] "cfg"
        (fun x => if x = "A" then some "1" else none) "srv") = true ∧
    required_env_error (fun x => if x = "A" then some "1" else none) "srv"
      [("X", "$\x7bA\x7d-$\x7bB\x7d")] =
      some (missingEnvMessage (String.mk ['A', rbrace, '-', '$', lbrace, 'B']) "srv") :=
  ⟨rfl, rfl, resolve_env_vars_partial_example, by decide, by decide⟩

/-- Claim C3: the source spawns the subprocess with the raw unresolved
`server_config.args`, not the `${VAR}`-resolved ones. On a server whose
args are `["${D}"]` with `D` set to `"val"`, the connect prelude succeeds
and passes `["${D}"]` to `StdioServerParameters`, while
`get_resolved_args()` — which `connect` never calls — would give
`["val"]`. -/
theorem connect_spawns_raw_args :
    ∃ params, ConnectionManager.connect_prelude
        [("s", ⟨"s", "cmd", ["$\x7bD\x7d"], []⟩)] "cfg.json"
        (fun k => if k = "D" then some "val" else none) "s" = Except.ok params ∧
      params.args = ["$\x7bD\x7d"] ∧
      ServerConfig.get_resolved_args (fun k => if k = "D" then some "val" else none)
        ⟨"s", "cmd", ["$\x7bD\x7d"], []⟩ = ["val"] ∧
      params.args ≠ ServerConfig.get_resolved_args (fun k => if k = "D" then some "val" else none)
        ⟨"s", "cmd", ["$\x7bD\x7d"], []⟩ := by
  have hres : resolve_env_vars (fun k => if k = "D" then some "val" else none) "$\x7bD\x7d"
      = "val" := resolve_env_vars_D_example
  refine ⟨_, rfl, rfl, ?_, ?_⟩
  · simp [ServerConfig.get_resolved_args, hres]
  · simp [ServerConfig.get_resolved_args, hres]

/-- Claim C4: a refresh with at least one successful server returns the
concatenation of the successful outcomes (failing servers contribute
nothing and raise nothing); a nonempty refresh where every server failed
raises the aggregate error. -/
theorem refresh_partial_failures (outcomes : List (String × Except String (List ToolInfo)))
    (hne : outcomes ≠ []) :
    ((∃ p ∈ outcomes, p.2.isOk = true) →
      ToolCache.refresh outcomes = Except.ok (outcomes.flatMap fun p =>
        match p.2 with | Except.ok ts => ts | Except.error _ => [])) ∧
    ((∀ p ∈ outcomes, p.2.isOk = false) →
      ToolCache.refresh outcomes = Except.error "Failed to connect to any servers") := by
  constructor
  · rintro ⟨p, hp, hok⟩
    unfold ToolCache.refresh
    rw [if_neg, refreshCollect_fst]
    rintro ⟨-, hcnt⟩
    rw [refreshCollect_snd] at hcnt
    have hall := List.countP_eq_length.mp hcnt p hp
    simp [hok] at hall
  · intro hall
    unfold ToolCache.refresh
    rw [if_pos ⟨by simpa using hne,
      by rw [refreshCollect_snd]
         exact List.countP_eq_length.mpr (fun p hp => by simp [hall p hp])⟩]

/-- Claim C4 instantiated at two servers, one succeeding with one tool and
one failing: the refresh returns exactly the successful tools. -/
theorem refresh_partial_failures_witness :
    (([("a", Except.ok [(⟨"s", "t", "d", Json.null⟩ : ToolInfo)]),
        ("b", (Except.error "boom" : Except String (List ToolInfo)))]) ≠ []) ∧
    ((∃ p ∈ [("a", Except.ok [(⟨"s", "t", "d", Json.null⟩ : ToolInfo)]),
        ("b", (Except.error "boom" : Except String (List ToolInfo)))], p.2.isOk = true) →
      ToolCache.refresh [("a", Except.ok [(⟨"s", "t", "d", Json.null⟩ : ToolInfo)]),
        ("b", (Except.error "boom" : Except String (List ToolInfo)))] =
        Except.ok ([("a", Except.ok [(⟨"s", "t", "d", Json.null⟩ : ToolInfo)]),
          ("b", (Except.error "boom" : Except String (List ToolInfo)))].flatMap fun p =>
          match p.2 with | Except.ok ts => ts | Except.error _ => [])) ∧
    ((∀ p ∈ [("a", Except.ok [(⟨"s", "t", "d", Json.null⟩ : ToolInfo)]),
        ("b", (Except.error "boom" : Except String (List ToolInfo)))], p.2.isOk = false) →
      ToolCache.refresh [("a", Except.ok [(⟨"s", "t", "d", Json.null⟩ : ToolInfo)]),
        ("b", (Except.error "boom" : Except String (List ToolInfo)))] =
        Except.error "Failed to connect to any servers") :=
  ⟨by simp, refresh_partial_failures _ (by simp)⟩

/-- Claim C5: when the socket path exists, a successful probe connection
(live listener) raises the conflict without removing the file; any failing
or timed-out probe treats the file as stale, removes it and binds; a
missing path is bound with no probe and no error. -/
theorem unix_start_probe_cases (probe : ProbeOutcome) :
    (unix_server_start true ProbeOutcome.connected =
      ⟨true, false, true, false⟩) ∧
    (probe ≠ ProbeOutcome.connected →
      unix_server_start true probe = ⟨false, true, true, true⟩) ∧
    (unix_server_start false probe = ⟨false, false, false, true⟩) := by
  refine ⟨rfl, fun hp => ?_, rfl⟩
  cases probe <;> first | rfl | exact absurd rfl hp

/-- Claim C5 instantiated at the timed-out probe: the stale file is removed
and the server binds. -/
theorem unix_start_probe_cases_witness :
    (ProbeOutcome.timedOut ≠ ProbeOutcome.connected) ∧
    ((unix_server_start true ProbeOutcome.connected = ⟨true, false, true, false⟩) ∧
     (ProbeOutcome.timedOut ≠ ProbeOutcome.connected →
       unix_server_start true ProbeOutcome.timedOut = ⟨false, true, true, true⟩) ∧
     (unix_server_start false ProbeOutcome.timedOut = ⟨false, false, false, true⟩)) :=
  ⟨by decide, unix_start_probe_cases ProbeOutcome.timedOut⟩

/-- Claim C6 (corrected): only the Unix transport converts a handler
exception into the `{action: "error", payload: {error: message}}` response
on the same connection; the Windows pipe transport catches the exception in
a `try` block that covers the response write and only logs, so it sends
nothing back. Neither transport lets the exception escape the accept loop
(both handler functions are total). -/
theorem handler_exception_responses (m : IPCMessage)
    (handler : IPCMessage → Except String IPCMessage) (e : String)
    (h : handler m = Except.error e) :
    unix_handle_client (some m) handler = [errorResponse e] ∧
    windows_handle_pipe_client (some m) handler = [] := by
  constructor <;> simp [unix_handle_client, windows_handle_pipe_client, h]

/-- Claim C6 instantiated at a handler that raises `boom`. -/
theorem handler_exception_responses_witness :
    ((fun _ : IPCMessage => (Except.error "boom" : Except String IPCMessage))
      ⟨Json.str "ping", Json.obj []⟩ = Except.error "boom") ∧
    (unix_handle_client (some ⟨Json.str "ping", Json.obj []⟩)
        (fun _ => Except.error "boom") = [errorResponse "boom"] ∧
      windows_handle_pipe_client (some ⟨Json.str "ping", Json.obj []⟩)
        (fun _ => Except.error "boom") = []) :=
  ⟨rfl, handler_exception_responses ⟨Json.str "ping", Json.obj []⟩
    (fun _ => Except.error "boom") "boom" rfl⟩

/-- The claim C6 wording is false on the Windows transport: a handler
exception on an accepted pipe connection produces no messages at all, in
particular not the error response the claim promises. -/
theorem windows_handler_exception_silent :
    windows_handle_pipe_client (some ⟨Json.str "call_tool", Json.obj []⟩)
      (fun _ => Except.error "handler blew up") = [] ∧
    ([] : List IPCMessage) ≠ [errorResponse "handler blew up"] :=
  ⟨rfl, by simp⟩

/-- Claim C7: looking up a name absent from the configuration fails with a
not-found error whose text contains every configured server name as a
substring (the names are sorted and joined into the message, and sorting
preserves membership). -/
theorem get_server_config_not_found_lists_all (servers : List (String × ServerConfig))
    (configPath name : String) (h : servers.lookup name = none) :
    ∃ msg, ConnectionManager.get_server_config servers configPath name = Except.error msg ∧
      ∀ s ∈ servers.map Prod.fst, s.data <:+: msg.data := by
  unfold ConnectionManager.get_server_config
  simp only [h]
  refine ⟨_, rfl, ?_⟩
  intro s hs
  have hs' : s ∈ (servers.map Prod.fst).insertionSort (fun a b => a ≤ b) :=
    (List.Perm.mem_iff (List.perm_insertionSort _ _)).mpr hs
  have hj := joinSep_mem_substring ", " s _ hs'
  simp only [String.data_append]
  exact infix_append_lift_right _ (infix_append_lift_right _ (infix_append_lift_left _ hj))

/-- Claim C7 instantiated at a two-server configuration and the unknown
name `zzz`: both configured names occur in the error text. -/
theorem get_server_config_not_found_lists_all_witness :
    (List.lookup "zzz" [("alpha", (⟨"alpha", "a", [], []⟩ : ServerConfig)),
      ("beta", ⟨"beta", "b", [], []⟩)] = none) ∧
    (∃ msg, ConnectionManager.get_server_config
        [("alpha", (⟨"alpha", "a", [], []⟩ : ServerConfig)), ("beta", ⟨"beta", "b", [], []⟩)]
        "cfg" "zzz" = Except.error msg ∧
      ∀ s ∈ [("alpha", (⟨"alpha", "a", [], []⟩ : ServerConfig)),
        ("beta", ⟨"beta", "b", [], []⟩)].map Prod.fst, s.data <:+: msg.data) :=
  ⟨by simp [List.lookup], get_server_config_not_found_lists_all _ "cfg" "zzz"
    (by simp [List.lookup])⟩

/-- Claim C8: the daemon check returns true exactly when the pid file
exists, its stripped content parses as an integer naming a live process,
and the transport connection succeeds; the pid file is deleted exactly when
it exists and names a dead process (unreadable or unparsable content leaves
the file in place). -/
theorem is_daemon_running_characterization (w : DaemonWorld) :
    ((SessionClient.is_daemon_running w).running = true ↔
      w.pidFileExists = true ∧ ∃ content pid, w.pidFileRead = Except.ok content ∧
        pyIntOfString content = some pid ∧ w.processAlive pid = true ∧ w.connectOk = true) ∧
    ((SessionClient.is_daemon_running w).pidFileDeleted = true ↔
      w.pidFileExists = true ∧ ∃ content pid, w.pidFileRead = Except.ok content ∧
        pyIntOfString content = some pid ∧ w.processAlive pid = false) := by
  obtain ⟨pe, pr, pa, co⟩ := w
  simp only [SessionClient.is_daemon_running]
  cases pe with
  | false => simp
  | true =>
    cases pr with
    | error e => simp
    | ok content =>
      cases hpi : pyIntOfString content with
      | none => simp [hpi]
      | some pid =>
        by_cases hal : pa pid = true
        · by_cases hco : co = true
          · simp [hpi, hal, hco]
          · simp [hpi, hal, hco]
        · simp [hpi, hal]

/-- Claim C9: exact search scores all matching tools by a case-insensitive
substring test, every name match scores 3, every server-only match 2 and
every description-only match 1, the result is sorted by descending score,
and membership in the result is exactly scored membership in the input; in
particular the query `issue` ranks `issue_tracker` (name match) above a
tool whose only `issue` occurrence is in its description. -/
theorem search_exact_ranking (q : String) (tools : List ToolInfo) :
    List.Pairwise (fun a b : ToolInfo × Nat => b.2 ≤ a.2)
      (ToolSearcher.search_exact q tools) ∧
    (∀ t s, (t, s) ∈ ToolSearcher.search_exact q tools ↔
      t ∈ tools ∧ exactScore q t = some s) ∧
    (∀ t, containsCI t.name q = true → exactScore q t = some 3) ∧
    (∀ t, containsCI t.name q = false → containsCI t.server q = true →
      exactScore q t = some 2) ∧
    (∀ t, containsCI t.name q = false → containsCI t.server q = false →
      containsCI t.description q = true → exactScore q t = some 1) ∧
    (ToolSearcher.search_exact "issue"
      [⟨"tracker", "issue_tracker", "tracks work items", Json.null⟩,
       ⟨"things", "get_thing", "fetches an issue by id", Json.null⟩]).map
      (fun r => (r.1.name, r.2)) = [("issue_tracker", 3), ("get_thing", 1)] := by
  haveI htot : IsTotal (ToolInfo × Nat) (fun a b => a.2 ≥ b.2) :=
    ⟨fun a b => le_total b.2 a.2⟩
  haveI htr : IsTrans (ToolInfo × Nat) (fun a b => a.2 ≥ b.2) :=
    ⟨fun a b c h1 h2 => le_trans h2 h1⟩
  refine ⟨?_, ?_, ?_, ?_, ?_, ?_⟩
  · unfold ToolSearcher.search_exact
    exact List.sorted_insertionSort (fun a b : ToolInfo × Nat => a.2 ≥ b.2) _
  · intro t s
    unfold ToolSearcher.search_exact
    rw [List.Perm.mem_iff (List.perm_insertionSort _ _)]
    simp only [List.mem_filterMap, Option.map_eq_some']
    constructor
    · rintro ⟨t', ht', s', hs', heq⟩
      cases heq
      exact ⟨ht', hs'⟩
    · rintro ⟨ht, hs⟩
      exact ⟨t, ht, s, hs, rfl⟩
  · intro t h1
    simp [exactScore, h1]
  · intro t h1 h2
    simp [exactScore, h1, h2]
  · intro t h1 h2 h3
    simp [exactScore, h1, h2, h3]
  · decide

/-- Claim C10: `from_bytes` on any byte string whose text decodes and
parses to an object defaults a missing `payload` key to the empty mapping
(`parsed.get("payload", {})`), but fails on a missing `action` key
(`parsed["action"]` raises) rather than defaulting the action. -/
theorem from_bytes_payload_default (bs : List Nat) (cs : List Char)
    (kvs : List (String × Json)) (hdec : utf8Decode bs = some cs)
    (hload : jsonLoads cs = some (Json.obj kvs)) :
    (∀ a, dictGet kvs "action" = some a → dictGet kvs "payload" = none →
      IPCMessage.from_bytes bs = some ⟨a, Json.obj []⟩) ∧
    (dictGet kvs "action" = none → IPCMessage.from_bytes bs = none) := by
  constructor
  · intro a h1 h2
    rw [from_bytes_of_obj _ _ _ hdec hload]
    simp only [h1, h2, Option.getD_none]
  · intro h1
    rw [from_bytes_of_obj _ _ _ hdec hload]
    simp only [h1]

/-- Claim C10 instantiated at the serialized object with only an `action`
key: the parsed message carries an empty payload. -/
theorem from_bytes_payload_default_witness :
    (utf8Decode (utf8Encode (serJson (Json.obj [("action", Json.str "go")]))) =
        some (serJson (Json.obj [("action", Json.str "go")])) ∧
      jsonLoads (serJson (Json.obj [("action", Json.str "go")])) =
        some (Json.obj [("action", Json.str "go")])) ∧
    ((∀ a, dictGet [("action", Json.str "go")] "action" = some a →
        dictGet [("action", Json.str "go")] "payload" = none →
        IPCMessage.from_bytes (utf8Encode (serJson (Json.obj [("action", Json.str "go")]))) =
          some ⟨a, Json.obj []⟩) ∧
      (dictGet [("action", Json.str "go")] "action" = none →
        IPCMessage.from_bytes (utf8Encode (serJson (Json.obj [("action", Json.str "go")]))) =
          none)) :=
  ⟨⟨utf8_roundtrip _, jsonLoads_serJson _ (by simp [Json.wf, Json.wfPairs, nodupKeys])⟩,
    from_bytes_payload_default _ _ _ (utf8_roundtrip _)
      (jsonLoads_serJson _ (by simp [Json.wf, Json.wfPairs, nodupKeys]))⟩
